import Mathlib

/-!
# promptkit: rendering and chain-execution engine

A shallow embedding of the Go packages `internal/validator`,
`internal/frontmatter`, `internal/engine`, `internal/registry` and
`internal/chain`, and theorems about them.

Conventions of the embedding.

* A Go `string` is a `Str`, a list of Unicode code points: the text is taken
  to be valid UTF-8 (the template file format), on which the byte-wise
  searches for the ASCII patterns used by the code (`---`, a line feed, `{{`)
  and the rune-wise `strings.TrimSpace` act as the list functions below.
* A Go `map[string]T` is a `GoMap T`, an association list read with
  `GoMap.get?` (first binding wins) and written with `GoMap.set`.
* A Go function returning `(T, error)` returns a pair `T × Option GoError`;
  `none` is the `nil` error.
* `yaml.Unmarshal`, `text/template` and the `%q` verb are library code: they
  are the fields of `Externals`, a parameter of every function that calls them.
-/

namespace Promptkit

/-- A Go string, as its sequence of code points. -/
abbrev Str := List Char

/-- A Go `map[string]β`. -/
abbrev GoMap (β : Type) := List (Str × β)

namespace GoMap

/-- The read `v, ok := m[k]`; `none` when `ok` is false. -/
def get? {β : Type} : GoMap β → Str → Option β
  | [], _ => none
  | (k', v) :: rest, k => if k' = k then some v else get? rest k

/-- The write `m[k] = v`. -/
def set {β : Type} : GoMap β → Str → β → GoMap β
  | [], k, v => [(k, v)]
  | (k', v') :: rest, k, v => if k' = k then (k, v) :: rest else (k', v') :: set rest k v

/-- The keys of a map. -/
def keys {β : Type} (m : GoMap β) : List Str := m.map Prod.fst

end GoMap

/-! ## Go library functions used by the code -/

/-- The predicate `unicode.IsSpace`. -/
def isSpace (c : Char) : Bool :=
  c == '\t' || c == '\n' || c.toNat == 0x0B || c.toNat == 0x0C || c == '\r' || c == ' ' ||
  c.toNat == 0x85 || c.toNat == 0xA0 || c.toNat == 0x1680 ||
  (0x2000 ≤ c.toNat && c.toNat ≤ 0x200A) ||
  c.toNat == 0x2028 || c.toNat == 0x2029 || c.toNat == 0x202F || c.toNat == 0x205F ||
  c.toNat == 0x3000

/-- The function `strings.TrimSpace`: leading and trailing white space removed. -/
def TrimSpace (s : Str) : Str :=
  ((s.dropWhile isSpace).reverse.dropWhile isSpace).reverse

/-- The function `strings.TrimLeft`: leading characters of `cutset` removed. -/
def TrimLeft (s cutset : Str) : Str :=
  s.dropWhile (fun c => decide (c ∈ cutset))

/-- The function `strings.HasPrefix`. -/
def HasPrefix (s pre : Str) : Bool :=
  pre.isPrefixOf s

/-- The function `strings.Index`: the position of the first occurrence of
`sep` in `s`; `none` stands for the result `-1`. -/
def Index : Str → Str → Option Nat
  | [], sep => if sep.isPrefixOf [] then some 0 else none
  | c :: s, sep =>
    if sep.isPrefixOf (c :: s) then some 0 else (Index s sep).map (· + 1)

/-- The function `strings.Join`. -/
def Join (elems : List Str) (sep : Str) : Str :=
  sep.intercalate elems

/-- The verb `%d` on a non-negative `int`. -/
def fmtInt (n : Nat) : Str :=
  (Nat.repr n).toList

/-! ## `internal/validator` -/

namespace validator

/-- The error `*validator.MissingVarsError`. -/
structure MissingVarsError where
  Missing : List Str
deriving DecidableEq, Repr

/-- The function `validator.Validate`: the loop appends every required name
that is not a key of `vars`; `none` is the `nil` error. -/
def Validate {β : Type} (requiredVars : List Str) (vars : GoMap β) : Option MissingVarsError :=
  let missing : List Str := requiredVars.foldl
    (fun missing name => if (vars.get? name).isSome then missing else missing ++ [name]) []
  if missing.length > 0 then some { Missing := missing } else none

end validator

/-! ## Errors and library parameters -/

/-- A Go `error` value of the program. `wrap pre inner` is
`fmt.Errorf(pre + "%w", inner)`. -/
inductive GoError where
  /-- The sentinel `frontmatter.ErrNoFrontmatter`. -/
  | noFrontmatter
  /-- An error returned by `yaml.Unmarshal`. -/
  | yaml (msg : Str)
  /-- An error returned by `text/template`. -/
  | template (msg : Str)
  /-- A `*validator.MissingVarsError`. -/
  | missingVars (e : validator.MissingVarsError)
  /-- An error made by `fmt.Errorf` without `%w`. -/
  | errorf (text : Str)
  /-- An error made by `fmt.Errorf` with a trailing `%w`. -/
  | wrap (pre : Str) (inner : GoError)
  /-- An error returned by package `os`. -/
  | io (msg : Str)
deriving DecidableEq, Repr

/-- The method `Error()`: the message of an error. -/
def GoError.Error : GoError → Str
  | .noFrontmatter => "no frontmatter found".toList
  | .yaml msg => msg
  | .template msg => msg
  | .missingVars e => "missing required variables: ".toList ++ Join e.Missing ", ".toList
  | .errorf text => text
  | .wrap pre inner => pre ++ inner.Error
  | .io msg => msg

/-- A value of a Go `any` held in a variable map. -/
inductive Value where
  | str (s : Str)
  | int (n : Int)
  | bool (b : Bool)
  | null
deriving DecidableEq, Repr

namespace frontmatter

/-- The struct `frontmatter.Metadata`. -/
structure Metadata where
  Name : Str := []
  Description : Str := []
  RequiredVars : List Str := []
  ModelHint : Str := []
deriving DecidableEq, Repr

/-- The struct `frontmatter.Result`. -/
structure Result where
  Meta : Metadata := {}
  Body : Str := []
deriving DecidableEq, Repr

end frontmatter

/-- The stage at which `text/template` fails in `engine.Render`. -/
inductive TemplateFailure where
  /-- `tmpl.New(name).Parse(incBody)` fails on the include `name`. -/
  | includeParse (name : Str) (msg : Str)
  /-- `tmpl.Parse(body)` fails. -/
  | parse (msg : Str)
  /-- `tmpl.Execute(&buf, vars)` fails. -/
  | exec (msg : Str)
deriving DecidableEq, Repr

/-- The library code the program calls. -/
structure Externals where
  /-- `yaml.Unmarshal([]byte(raw), &meta)` on a zero `Metadata`: the decoded
  metadata, or the message of the error. -/
  yamlUnmarshal : Str → Except Str frontmatter.Metadata
  /-- The verb `%q` on a string. -/
  quote : Str → Str
  /-- `text/template` with `FuncMap()`: the includes registered, `body` parsed
  and executed on `vars`; the output, or the stage that failed. -/
  template : (body : Str) → (vars : GoMap Value) → (includes : GoMap Str) →
    Except TemplateFailure Str

/-! ## `internal/frontmatter` -/

namespace frontmatter

/-- The constant `delimiter`. -/
def delimiter : Str := "---".toList

/-- The function `frontmatter.Parse`. -/
def Parse (E : Externals) (content : Str) : Result × Option GoError :=
  let trimmed := TrimSpace content
  if !HasPrefix trimmed delimiter then
    ({ Body := content }, some GoError.noFrontmatter)
  else
    let rest := trimmed.drop delimiter.length
    match Index rest ("\n".toList ++ delimiter) with
    | none => ({ Body := content }, some GoError.noFrontmatter)
    | some idx =>
      let rawYAML := rest.take idx
      let body := rest.drop (idx + ("\n".toList ++ delimiter).length)
      let body := TrimLeft body "\r\n".toList
      match E.yamlUnmarshal rawYAML with
      | .error msg => ({}, some (GoError.yaml msg))
      | .ok m => ({ Meta := m, Body := body }, none)

end frontmatter

/-! ## `internal/engine` -/

namespace engine

/-- The struct `engine.RenderResult`. -/
structure RenderResult where
  Output : Str := []
  Meta : frontmatter.Metadata := {}
deriving DecidableEq, Repr

/-- The function `engine.Render`. -/
def Render (E : Externals) (content : Str) (vars : GoMap Value) (includes : GoMap Str) :
    RenderResult × Option GoError :=
  let (parsed, fmErr) := frontmatter.Parse E content
  let m := if fmErr.isSome then ({} : frontmatter.Metadata) else parsed.Meta
  let body := if fmErr.isSome then content else parsed.Body
  match E.template body vars includes with
  | .error (.includeParse name msg) =>
    ({}, some (.wrap ("parsing include ".toList ++ E.quote name ++ ": ".toList) (.template msg)))
  | .error (.parse msg) =>
    ({}, some (.wrap "parsing template: ".toList (.template msg)))
  | .error (.exec msg) =>
    ({}, some (.wrap "executing template: ".toList (.template msg)))
  | .ok out => ({ Output := out, Meta := m }, none)

end engine

/-! ## `internal/registry` -/

namespace registry

/-- The struct `registry.Template`. -/
structure Template where
  Name : Str := []
  Meta : frontmatter.Metadata := {}
  Body : Str := []
  Content : Str := []
deriving DecidableEq, Repr

/-- The struct `registry.Registry`. -/
structure Registry where
  templates : GoMap Template := []
  includes : GoMap Str := []
deriving DecidableEq, Repr

/-- The function `registry.New`. -/
def New : Registry := { templates := [], includes := [] }

/-- The method `Registry.Get`. -/
def Registry.Get (E : Externals) (r : Registry) (name : Str) : Except GoError Template :=
  match r.templates.get? name with
  | none => .error (.errorf ("template ".toList ++ E.quote name ++ " not found".toList))
  | some tmpl => .ok tmpl

/-- The method `Registry.Includes`. -/
def Registry.Includes (r : Registry) : GoMap Str := r.includes

end registry

/-! ## `internal/chain` -/

namespace chain

/-- The struct `chain.Step`. -/
structure Step where
  Template : Str := []
  Vars : GoMap Str := []
  OutputVar : Str := []
deriving DecidableEq, Repr

/-- The struct `chain.Definition`. -/
structure Definition where
  Name : Str := []
  Steps : List Step := []
deriving DecidableEq, Repr

/-- The struct `chain.Result`. -/
structure Result where
  Final : Str := []
  Intermediates : GoMap Str := []
deriving DecidableEq, Repr

/-- The function `resolveVar`. -/
def resolveVar (E : Externals) (val : Str) (vars : GoMap Value) : Str :=
  match engine.Render E val vars [] with
  | (_, some _) => val
  | (result, none) => result.Output

/-- The step variables built by the inner loop of `Execute`. -/
def stepVars (E : Externals) (step : Step) (vars : GoMap Value) : GoMap Value :=
  step.Vars.foldl (fun sv kv => sv.set kv.1 (Value.str (resolveVar E kv.2 vars))) []

/-- The loop of `Execute` over the steps from index `i` on, with the state
`vars`, `intermediates` and `lastOutput`. -/
def Execute.loop (E : Externals) (reg : registry.Registry) :
    Nat → List Step → GoMap Value → GoMap Str → Str → Result × Option GoError
  | _, [], _, intermediates, lastOutput =>
    ({ Final := lastOutput, Intermediates := intermediates }, none)
  | i, step :: steps, vars, intermediates, _ =>
    match reg.Get E step.Template with
    | .error err => ({}, some (.wrap ("step ".toList ++ fmtInt (i + 1) ++ ": ".toList) err))
    | .ok tmpl =>
      let sv := stepVars E step vars
      match (if tmpl.Meta.RequiredVars.length > 0
              then validator.Validate tmpl.Meta.RequiredVars sv else none) with
      | some err =>
        ({}, some (.wrap ("step ".toList ++ fmtInt (i + 1) ++ " (".toList ++ step.Template
          ++ "): ".toList) (.missingVars err)))
      | none =>
        match engine.Render E tmpl.Content sv reg.Includes with
        | (_, some err) =>
          ({}, some (.wrap ("step ".toList ++ fmtInt (i + 1) ++ " (".toList ++ step.Template
            ++ "): rendering: ".toList) err))
        | (result, none) =>
          if step.OutputVar ≠ [] then
            Execute.loop E reg (i + 1) steps (vars.set step.OutputVar (Value.str result.Output))
              (intermediates.set step.OutputVar result.Output) result.Output
          else
            Execute.loop E reg (i + 1) steps vars intermediates result.Output

/-- The function `chain.Execute`. -/
def Execute (E : Externals) (d : Definition) (reg : registry.Registry)
    (initialVars : GoMap Value) : Result × Option GoError :=
  let vars : GoMap Value := initialVars.foldl (fun m kv => m.set kv.1 kv.2) []
  Execute.loop E reg 0 d.Steps vars [] []

end chain

/-! ## What is used of `text/template`

The templates of the examples are literal text with actions `{{ .name }}`.
`texttemplate.run` gives the output of `text/template` on a body of that form
and is `none` on any other body, about which it says nothing. -/

namespace texttemplate

/-- A blank between the delimiters of an action and its field. -/
def isBlank (c : Char) : Bool :=
  c == ' ' || c == '\t'

/-- A character of an ASCII identifier. -/
def isIdentChar (c : Char) : Bool :=
  c.isAlphanum || c == '_'

/-- The field name of an action whose text, between `{{` and `}}`, is blanks,
a dot, an identifier and blanks. -/
def fieldOfAction (inner : Str) : Option Str :=
  match inner.dropWhile isBlank with
  | '.' :: rest =>
    match rest.takeWhile isIdentChar with
    | [] => none
    | c :: name =>
      if c.isDigit then none
      else if (rest.dropWhile isIdentChar).all isBlank then some (c :: name) else none
  | _ => none

/-- The text printed for the value of a field of the variable map; a key that
is absent, or bound to `nil`, prints as `<no value>` (the default
`missingkey` option, which the code never changes). -/
def printValue : Option Value → Str
  | some (.str s) => s
  | some (.int n) => (toString n).toList
  | some (.bool true) => "true".toList
  | some (.bool false) => "false".toList
  | some .null => "<no value>".toList
  | none => "<no value>".toList

/-- The output on the rest of the body; the second argument is `none` in
literal text and `some acc` inside an action, `acc` being the text of the
action read so far, reversed. -/
def run (vars : GoMap Value) : Str → Option Str → Option Str
  | [], none => some []
  | [], some _ => none
  | '{' :: '{' :: rest, none => run vars rest (some [])
  | c :: rest, none => (run vars rest none).map (c :: ·)
  | '}' :: '}' :: rest, some acc =>
    match fieldOfAction acc.reverse with
    | none => none
    | some name => (run vars rest none).map (printValue (vars.get? name) ++ ·)
  | c :: rest, some acc => run vars rest (some (c :: acc))

end texttemplate

/-- The library renders the templates of the fragment as `texttemplate.run`
does, when no include is registered. -/
def Externals.RendersFields (E : Externals) : Prop :=
  ∀ (body : Str) (vars : GoMap Value) (out : Str),
    texttemplate.run vars body none = some out → E.template body vars [] = .ok out

/-! ## Library behaviour on the examples -/

/-- The answers of `yaml.Unmarshal` on the metadata blocks of the examples. -/
def exampleUnmarshal (raw : Str) : Except Str frontmatter.Metadata :=
  if raw = "\nname: step_one\ndescription: First step\nrequired_vars:\n  - input".toList then
    .ok { Name := "step_one".toList, Description := "First step".toList,
          RequiredVars := ["input".toList] }
  else if raw = "\nname: step_two\ndescription: Second step\nrequired_vars:\n  - data".toList then
    .ok { Name := "step_two".toList, Description := "Second step".toList,
          RequiredVars := ["data".toList] }
  else if raw = "\nname: a".toList then
    .ok { Name := "a".toList }
  else if raw = "\nname: a: b".toList then
    .error "yaml: line 2: mapping values are not allowed in this context".toList
  else if raw = [] then
    .ok {}
  else
    .error "yaml: not an example".toList

/-- The verb `%q` on a string of printable characters without quote or
backslash. -/
def exampleQuote (s : Str) : Str :=
  "\"".toList ++ s ++ "\"".toList

/-- The library on the examples: the decoder above, and `text/template` on
the fragment with no include. -/
def exampleExternals : Externals where
  yamlUnmarshal := exampleUnmarshal
  quote := exampleQuote
  template := fun body vars includes =>
    match includes, texttemplate.run vars body none with
    | [], some out => .ok out
    | _, _ => .error (.parse "template: not an example".toList)

/-- The registry of the chain tests: the files `step_one.tmpl` and
`step_two.tmpl`, no include. -/
def exampleRegistry : registry.Registry where
  templates :=
    [("step_one".toList,
      { Name := "step_one".toList,
        Meta := { Name := "step_one".toList, Description := "First step".toList,
                  RequiredVars := ["input".toList] },
        Body := "Processed: \x7b\x7b .input \x7d\x7d".toList,
        Content := ("---\nname: step_one\ndescription: First step\nrequired_vars:\n  - input\n"
          ++ "---\nProcessed: \x7b\x7b .input \x7d\x7d").toList }),
     ("step_two".toList,
      { Name := "step_two".toList,
        Meta := { Name := "step_two".toList, Description := "Second step".toList,
                  RequiredVars := ["data".toList] },
        Body := "Final: \x7b\x7b .data \x7d\x7d".toList,
        Content := ("---\nname: step_two\ndescription: Second step\nrequired_vars:\n  - data\n"
          ++ "---\nFinal: \x7b\x7b .data \x7d\x7d").toList })]
  includes := []

/-- The first step of the chain of the tests. -/
def exampleStepOne : chain.Step where
  Template := "step_one".toList
  Vars := [("input".toList, "\x7b\x7b .user_input \x7d\x7d".toList)]
  OutputVar := "step_one_out".toList

/-- The second step of the chain of the tests. -/
def exampleStepTwo : chain.Step where
  Template := "step_two".toList
  Vars := [("data".toList, "\x7b\x7b .step_one_out \x7d\x7d".toList)]
  OutputVar := "final_out".toList

/-! ## `internal/engine`: the helper functions of `funcmap.go`

`truncate` and `tokenEstimate` look at a string through `len` and the slice
expression, which count and cut bytes: their argument is the byte sequence of
the string, a `Bytes`. `wordCount` splits at white-space runes and takes a
`Str`. A Go `int` is an `Int` (or a `Nat` where it cannot be negative); the
sums of the code stay far below the range of 64 bits. A Go function that
panics returns `none`. -/

/-- The bytes of a Go string. -/
abbrev Bytes := List Nat

/-- The bytes of a string of ASCII characters. -/
def asciiBytes (s : String) : Bytes :=
  s.toList.map Char.toNat

/-- The slice expression `s[:hi]` of Go: it panics unless `0 ≤ hi ≤ len(s)`. -/
def sliceTo (s : Bytes) (hi : Int) : Option Bytes :=
  if 0 ≤ hi ∧ hi ≤ (s.length : Int) then some (s.take hi.toNat) else none

/-- The function `strings.Fields`, reading the rest of the text with the
current field `cur` (reversed): the maximal runs without a white-space rune. -/
def Fields.go : Str → Str → List Str
  | [], cur => if cur = [] then [] else [cur.reverse]
  | c :: s, cur =>
    if isSpace c then
      (if cur = [] then Fields.go s [] else cur.reverse :: Fields.go s [])
    else Fields.go s (c :: cur)

/-- The function `strings.Fields`. -/
def Fields (s : Str) : List Str :=
  Fields.go s []

namespace engine

/-- The function `truncate`; `none` is the panic of the slice expression. -/
def truncate (maxChars : Int) (text : Bytes) : Option Bytes :=
  if (text.length : Int) ≤ maxChars then some text
  else if maxChars ≤ 3 then sliceTo text maxChars
  else (sliceTo text (maxChars - 3)).map (· ++ asciiBytes "...")

/-- The function `wordCount`. -/
def wordCount (text : Str) : Nat :=
  (Fields text).length

/-- The function `tokenEstimate`. -/
def tokenEstimate (text : Bytes) : Nat :=
  let n := text.length
  if n = 0 then 0 else (n + 3) / 4

end engine

/-! ## `internal/chain`: `Parse` -/

/-- The function `chain.Parse`; `decode` is `yaml.Unmarshal(data, &def)` on a
zero `Definition`: the decoded definition, or the message of the error. -/
def chain.Parse (E : Externals) (decode : Str → Except Str chain.Definition) (data : Str) :
    chain.Definition × Option GoError :=
  match decode data with
  | .error msg => ({}, some (.wrap "parsing chain YAML: ".toList (.yaml msg)))
  | .ok d =>
    if d.Steps.length = 0 then
      ({}, some (.errorf ("chain ".toList ++ E.quote d.Name ++ " has no steps".toList)))
    else (d, none)

/-- The answers of `yaml.Unmarshal` on the chain definitions of the examples. -/
def exampleDecodeChain (data : Str) : Except Str chain.Definition :=
  if data = "name: empty\nsteps: []\n".toList then
    .ok { Name := "empty".toList, Steps := [] }
  else if data = "name: no-steps\n".toList then
    .ok { Name := "no-steps".toList, Steps := [] }
  else if data = ("name: test-chain\nsteps:\n  - template: step_one\n    vars:\n"
      ++ "      input: \"\x7b\x7b .user_input \x7d\x7d\"\n    output_var: step_one_out\n\n"
      ++ "  - template: step_two\n    vars:\n      data: \"\x7b\x7b .step_one_out \x7d\x7d\"\n"
      ++ "    output_var: final_out\n").toList then
    .ok { Name := "test-chain".toList, Steps := [exampleStepOne, exampleStepTwo] }
  else
    .error "yaml: not an example".toList

/-! ## `chain.Execute` on a heap of maps

A Go map is a reference: two variables may name one map, and a write through
one is seen through the other. To tell what `Execute` does to the map of its
caller, the maps of type `map[string]any` are kept here in a heap, `make`
allocates a new one and `m[k] = v` writes the one that `m` refers to. The
template library reads the maps it is given and writes none. The map
`intermediates` has another type and is a local of `Execute` until it is
returned; it stays a value. -/

/-- The maps of type `map[string]any`; a reference is a position. -/
abbrev Heap := List (GoMap Value)

namespace Heap

/-- The map a reference refers to. -/
def read (h : Heap) (r : Nat) : GoMap Value :=
  h.getD r []

/-- The call `make(map[string]any, n)`: the heap with a new empty map, and the
reference to it. -/
def make (h : Heap) : Heap × Nat :=
  (h ++ [[]], h.length)

/-- The write `m[k] = v`, `r` being the reference held by `m`. -/
def write (h : Heap) (r : Nat) (k : Str) (v : Value) : Heap :=
  h.set r ((h.read r).set k v)

end Heap

namespace chain

/-- The inner loop of `Execute` that fills the step variables, the map at
`sv`, from the ambient variables, the map at `vars`. -/
def stepVarsOnHeap (E : Externals) (step : Step) (vars sv : Nat) (h : Heap) : Heap :=
  step.Vars.foldl
    (fun hh kv => hh.write sv kv.1 (Value.str (resolveVar E kv.2 (hh.read vars)))) h

/-- The loop of `Execute`, the ambient variables being the map at `vars`. -/
def Execute.heapLoop (E : Externals) (reg : registry.Registry) (vars : Nat) :
    Nat → List Step → Heap → GoMap Str → Str → (Result × Option GoError) × Heap
  | _, [], h, intermediates, lastOutput =>
    (({ Final := lastOutput, Intermediates := intermediates }, none), h)
  | i, step :: steps, h, intermediates, _ =>
    match reg.Get E step.Template with
    | .error err =>
      (({}, some (.wrap ("step ".toList ++ fmtInt (i + 1) ++ ": ".toList) err)), h)
    | .ok tmpl =>
      let h2 := stepVarsOnHeap E step vars h.make.2 h.make.1
      match (if tmpl.Meta.RequiredVars.length > 0
              then validator.Validate tmpl.Meta.RequiredVars (h2.read h.make.2) else none) with
      | some err =>
        (({}, some (.wrap ("step ".toList ++ fmtInt (i + 1) ++ " (".toList ++ step.Template
          ++ "): ".toList) (.missingVars err))), h2)
      | none =>
        match engine.Render E tmpl.Content (h2.read h.make.2) reg.Includes with
        | (_, some err) =>
          (({}, some (.wrap ("step ".toList ++ fmtInt (i + 1) ++ " (".toList ++ step.Template
            ++ "): rendering: ".toList) err)), h2)
        | (result, none) =>
          if step.OutputVar ≠ [] then
            Execute.heapLoop E reg vars (i + 1) steps
              (h2.write vars step.OutputVar (Value.str result.Output))
              (intermediates.set step.OutputVar result.Output) result.Output
          else
            Execute.heapLoop E reg vars (i + 1) steps h2 intermediates result.Output

/-- The function `chain.Execute` called with the reference `initialVars` to
the map of the caller: the result, and the heap when it returns. -/
def ExecuteOnHeap (E : Externals) (d : Definition) (reg : registry.Registry) (h : Heap)
    (initialVars : Nat) : (Result × Option GoError) × Heap :=
  let vars := h.make.2
  let h2 := (h.make.1.read initialVars).foldl (fun hh kv => hh.write vars kv.1 kv.2) h.make.1
  Execute.heapLoop E reg vars 0 d.Steps h2 [] []

end chain

/-! ## `internal/registry`: loading a directory

A method on `*Registry` that writes the registry returns the registry it
leaves, with its error. Package `os` and `path/filepath` are the parameter
`FileSystem`. -/

/-- The function `strings.HasSuffix`. -/
def HasSuffix (s suffix : Str) : Bool :=
  suffix.reverse.isPrefixOf s.reverse

/-- The function `strings.TrimSuffix`. -/
def TrimSuffix (s suffix : Str) : Str :=
  if HasSuffix s suffix then s.take (s.length - suffix.length) else s

namespace config

/-- The constant `config.IncludesDir`. -/
def IncludesDir : Str := "includes".toList

end config

namespace registry

/-- An `os.DirEntry`: its `Name()` and `IsDir()`. -/
structure DirEntry where
  Name : Str
  IsDir : Bool
deriving DecidableEq, Repr

/-- The calls to `os` and `path/filepath`. -/
structure FileSystem where
  /-- `filepath.Join(dir, name)`. -/
  Join : Str → Str → Str
  /-- `filepath.Base(path)`. -/
  Base : Str → Str
  /-- `os.Stat(path)`: the error, or `info.IsDir()`. -/
  Stat : Str → Except GoError Bool
  /-- `os.ReadDir(dir)`: the error, or the entries in the order of the listing. -/
  ReadDir : Str → Except GoError (List DirEntry)
  /-- `os.ReadFile(path)`: the error, or the content as a string. -/
  ReadFile : Str → Except GoError Str

/-- The test `entry.IsDir() || !strings.HasSuffix(entry.Name(), ".tmpl")` of the
two loops, negated: the entry is loaded. -/
def isTemplateFile (entry : DirEntry) : Bool :=
  !(entry.IsDir || !HasSuffix entry.Name ".tmpl".toList)

/-- The record that `loadTemplate` builds from the base name of the path and
the content of the file. -/
def templateOf (E : Externals) (base content : Str) : Template :=
  let name := if (frontmatter.Parse E content).1.Meta.Name = []
    then TrimSuffix base ".tmpl".toList else (frontmatter.Parse E content).1.Meta.Name
  { Name := name
    Content := content
    Body := (frontmatter.Parse E content).1.Body
    Meta := if (frontmatter.Parse E content).2.isNone
      then (frontmatter.Parse E content).1.Meta else {} }

/-- The method `Registry.loadTemplate`. -/
def Registry.loadTemplate (E : Externals) (fs : FileSystem) (r : Registry) (path : Str) :
    Registry × Option GoError :=
  match fs.ReadFile path with
  | .error err => (r, some err)
  | .ok content =>
    let tmpl := templateOf E (fs.Base path) content
    ({ r with templates := r.templates.set tmpl.Name tmpl }, none)

/-- The loop of `loadIncludes` over the entries of the directory. -/
def Registry.loadIncludes.loop (fs : FileSystem) (dir : Str) :
    List DirEntry → Registry → Registry × Option GoError
  | [], r => (r, none)
  | entry :: entries, r =>
    if isTemplateFile entry then
      match fs.ReadFile (fs.Join dir entry.Name) with
      | .error err => (r, some err)
      | .ok data =>
        Registry.loadIncludes.loop fs dir entries
          { r with includes := r.includes.set (TrimSuffix entry.Name ".tmpl".toList) data }
    else Registry.loadIncludes.loop fs dir entries r

/-- The method `Registry.loadIncludes`. -/
def Registry.loadIncludes (fs : FileSystem) (r : Registry) (dir : Str) :
    Registry × Option GoError :=
  match fs.ReadDir dir with
  | .error err => (r, some err)
  | .ok entries => Registry.loadIncludes.loop fs dir entries r

/-- The first block of `LoadDir`: the includes are loaded when the
subdirectory exists. -/
def Registry.LoadDir.includes (fs : FileSystem) (r : Registry) (dir : Str) :
    Registry × Option GoError :=
  match fs.Stat (fs.Join dir config.IncludesDir) with
  | .ok true =>
    match r.loadIncludes fs (fs.Join dir config.IncludesDir) with
    | (r', some err) => (r', some (.wrap "loading includes: ".toList err))
    | (r', none) => (r', none)
  | _ => (r, none)

/-- The loop of `LoadDir` over the entries of the directory. -/
def Registry.LoadDir.loop (E : Externals) (fs : FileSystem) (dir : Str) :
    List DirEntry → Registry → Registry × Option GoError
  | [], r => (r, none)
  | entry :: entries, r =>
    if isTemplateFile entry then
      match r.loadTemplate E fs (fs.Join dir entry.Name) with
      | (r', some err) =>
        (r', some (.wrap ("loading template ".toList ++ E.quote (fs.Join dir entry.Name)
          ++ ": ".toList) err))
      | (r', none) => Registry.LoadDir.loop E fs dir entries r'
    else Registry.LoadDir.loop E fs dir entries r

/-- The method `Registry.LoadDir`. -/
def Registry.LoadDir (E : Externals) (fs : FileSystem) (r : Registry) (dir : Str) :
    Registry × Option GoError :=
  match Registry.LoadDir.includes fs r dir with
  | (r', some err) => (r', some err)
  | (r', none) =>
    match fs.ReadDir dir with
    | .error err =>
      (r', some (.wrap ("reading directory ".toList ++ E.quote dir ++ ": ".toList) err))
    | .ok entries => Registry.LoadDir.loop E fs dir entries r'

/-- The method `Registry.List`, in the order of the association list. -/
def Registry.List (r : Registry) : List Template :=
  r.templates.map Prod.snd

end registry

/-- The file system of the examples. The directory `chain` holds the two
templates of the chain tests; `dup` holds two files that declare the name `a`;
`broken` holds a plain template and a file that cannot be read; `badmeta` holds
a file whose metadata the decoder rejects; `mixed` holds `greeting.tmpl`, which
declares the name `a`, a file that is no template, and the plain template
`plain.tmpl`. None has an `includes` subdirectory but `withinc`, whose
`includes` holds `header.tmpl`. -/
def exampleFS : registry.FileSystem where
  Join := fun dir name => dir ++ "/".toList ++ name
  Base := fun path => (path.reverse.takeWhile (fun c => c != '/')).reverse
  Stat := fun path =>
    if path = "withinc/includes".toList then .ok true
    else .error (.io ("stat ".toList ++ path ++ ": no such file or directory".toList))
  ReadDir := fun dir =>
    if dir = "chain".toList then
      .ok [⟨"chain.yaml".toList, false⟩, ⟨"step_one.tmpl".toList, false⟩,
        ⟨"step_two.tmpl".toList, false⟩]
    else if dir = "dup".toList then
      .ok [⟨"a.tmpl".toList, false⟩, ⟨"b.tmpl".toList, false⟩]
    else if dir = "broken".toList then
      .ok [⟨"a.tmpl".toList, false⟩, ⟨"b.tmpl".toList, false⟩, ⟨"c.tmpl".toList, false⟩]
    else if dir = "badmeta".toList then
      .ok [⟨"bad.tmpl".toList, false⟩]
    else if dir = "withinc".toList then
      .ok [⟨"includes".toList, true⟩, ⟨"plain.tmpl".toList, false⟩]
    else if dir = "withinc/includes".toList then
      .ok [⟨"header.tmpl".toList, false⟩]
    else if dir = "mixed".toList then
      .ok [⟨"greeting.tmpl".toList, false⟩, ⟨"notes.txt".toList, false⟩,
        ⟨"plain.tmpl".toList, false⟩]
    else .error (.io ("open ".toList ++ dir ++ ": no such file or directory".toList))
  ReadFile := fun path =>
    if path = "chain/step_one.tmpl".toList then
      .ok ("---\nname: step_one\ndescription: First step\nrequired_vars:\n  - input\n"
        ++ "---\nProcessed: \x7b\x7b .input \x7d\x7d").toList
    else if path = "chain/step_two.tmpl".toList then
      .ok ("---\nname: step_two\ndescription: Second step\nrequired_vars:\n  - data\n"
        ++ "---\nFinal: \x7b\x7b .data \x7d\x7d").toList
    else if path = "dup/a.tmpl".toList then .ok "---\nname: a\n---\nfirst".toList
    else if path = "dup/b.tmpl".toList then .ok "---\nname: a\n---\nsecond".toList
    else if path = "broken/a.tmpl".toList then .ok "Just plain text.".toList
    else if path = "broken/c.tmpl".toList then .ok "Never read.".toList
    else if path = "badmeta/bad.tmpl".toList then .ok "---\nname: a: b\n---\nHello".toList
    else if path = "withinc/plain.tmpl".toList then .ok "Just plain text.".toList
    else if path = "withinc/includes/header.tmpl".toList then .ok "=== HEADER ===".toList
    else if path = "mixed/greeting.tmpl".toList then .ok "---\nname: a\n---\nHello".toList
    else if path = "mixed/notes.txt".toList then .ok "Not a template.".toList
    else if path = "mixed/plain.tmpl".toList then .ok "Just plain text.".toList
    else if path = "broken/b.tmpl".toList then
      .error (.io "open broken/b.tmpl: permission denied".toList)
    else .error (.io ("open ".toList ++ path ++ ": no such file or directory".toList))

/-! ## Notions of the specification -/

/-- The body in the words of the specification: the text of the original,
untrimmed content strictly after the closing delimiter, its leading line
breaks stripped; `none` when the content has no closing delimiter. -/
def frontmatter.bodyOfOriginal (content : Str) : Option Str :=
  let afterOpening := (content.dropWhile isSpace).drop frontmatter.delimiter.length
  (Index afterOpening ("\n".toList ++ frontmatter.delimiter)).map
    (fun idx => TrimLeft
      (afterOpening.drop (idx + ("\n".toList ++ frontmatter.delimiter).length)) "\r\n".toList)

/-- The ambient variables after a step that rendered `out`: a step that names
an output variable stores its output under that name. -/
def chain.ambientAfter (step : chain.Step) (out : Str) (vars : GoMap Value) : GoMap Value :=
  if step.OutputVar ≠ [] then vars.set step.OutputVar (Value.str out) else vars

/-- The texts `outs` are the rendered outputs of the steps, run in order from
the ambient variables `vars`: the template of each step is in the registry and
its content, rendered on the resolved variables of the step with the includes
of the registry, gives the output without error; the later steps see the
output variable of the step. -/
def chain.rendersTo (E : Externals) (reg : registry.Registry) :
    GoMap Value → List chain.Step → List Str → Bool
  | _, [], [] => true
  | vars, step :: steps, out :: outs =>
    (match reg.templates.get? step.Template with
     | none => false
     | some tmpl =>
       (engine.Render E tmpl.Content (chain.stepVars E step vars) reg.Includes).2.isNone &&
       decide ((engine.Render E tmpl.Content (chain.stepVars E step vars) reg.Includes).1.Output
         = out)) &&
    chain.rendersTo E reg (chain.ambientAfter step out vars) steps outs
  | _, _, _ => false

/-- The output of the last step that declares the output variable `name`. -/
def chain.lastDeclared (name : Str) (steps : List chain.Step) (outs : List Str) : Option Str :=
  ((steps.zip outs).reverse.find? (fun p => decide (p.1.OutputVar = name))).map Prod.snd

/-- The number of maximal runs of characters that are not white space in a
text that follows white space (`prev` true) or a character that is not
(`prev` false): the number of positions that hold a character that is not
white space, right after white space or the start. -/
def nonSpaceRunsFrom (prev : Bool) (s : Str) : Nat :=
  ((prev :: s.map isSpace).zip (s.map isSpace)).countP (fun p => p.1 && !p.2)

/-- The number of maximal runs of characters that are not white space. -/
def nonSpaceRuns (s : Str) : Nat :=
  nonSpaceRunsFrom true s

/-- The error `err` is the abort of a step of `chain.Execute`: the lookup of
the template of the step failed, or the validation of the resolved variables
of the step against the required names failed, or the rendering of the
content of the template on them failed; `k` is the number of the step and
`vars` the ambient variables it ran with. -/
def chain.StepAbort (E : Externals) (reg : registry.Registry) (err : GoError) : Prop :=
  ∃ (k : Nat) (step : chain.Step) (vars : GoMap Value),
    (reg.templates.get? step.Template = none ∧
      err = .wrap ("step ".toList ++ fmtInt k ++ ": ".toList)
        (.errorf ("template ".toList ++ E.quote step.Template ++ " not found".toList))) ∨
    (∃ (tmpl : registry.Template) (e : validator.MissingVarsError),
      reg.templates.get? step.Template = some tmpl ∧
      validator.Validate tmpl.Meta.RequiredVars (chain.stepVars E step vars) = some e ∧
      err = .wrap ("step ".toList ++ fmtInt k ++ " (".toList ++ step.Template
        ++ "): ".toList) (.missingVars e)) ∨
    (∃ (tmpl : registry.Template) (e : GoError),
      reg.templates.get? step.Template = some tmpl ∧
      (engine.Render E tmpl.Content (chain.stepVars E step vars) reg.Includes).2 = some e ∧
      err = .wrap ("step ".toList ++ fmtInt k ++ " (".toList ++ step.Template
        ++ "): rendering: ".toList) e)

/-- The name a template file resolves to, in the words of the specification:
the name its metadata declares when the frontmatter is parsed and the name
is not empty, and otherwise the file name without the extension `.tmpl`. -/
def registry.resolvedName (E : Externals) (fileName content : Str) : Str :=
  match frontmatter.Parse E content with
  | (p, none) => if p.Meta.Name ≠ [] then p.Meta.Name else TrimSuffix fileName ".tmpl".toList
  | (_, some _) => TrimSuffix fileName ".tmpl".toList

/-- The template files of a listing that are read, in the order of the listing,
each with its content. -/
def registry.filesRead (fs : registry.FileSystem) (dir : Str)
    (entries : List registry.DirEntry) : List (Str × Str) :=
  entries.filterMap (fun e =>
    if registry.isTemplateFile e then
      match fs.ReadFile (fs.Join dir e.Name) with
      | .ok content => some (e.Name, content)
      | .error _ => none
    else none)

/-- The last of the files, given with their contents, that resolves to `name`. -/
def registry.lastResolved (E : Externals) (name : Str) (files : List (Str × Str)) :
    Option (Str × Str) :=
  files.reverse.find? (fun f => decide (registry.resolvedName E f.1 f.2 = name))

/-! ## Lemmas on maps -/

theorem GoMap.get?_isSome_iff {β : Type} (m : GoMap β) (k : Str) :
    (m.get? k).isSome = true ↔ k ∈ m.keys := by
  induction m with
  | nil => simp [GoMap.get?, GoMap.keys]
  | cons p rest ih =>
    obtain ⟨k', v⟩ := p
    have ih' : (GoMap.get? rest k).isSome = true ↔ k ∈ List.map Prod.fst rest := ih
    by_cases h : k' = k
    · simp only [GoMap.get?, GoMap.keys, h, if_true, Option.isSome_some, List.map_cons,
        List.mem_cons, true_or]
    · have h' : ¬ k = k' := fun e => h e.symm
      simp only [GoMap.get?, GoMap.keys, h, h', if_false, List.map_cons, List.mem_cons,
        false_or, ih']

theorem GoMap.get?_set {β : Type} (m : GoMap β) (k : Str) (v : β) (k' : Str) :
    (m.set k v).get? k' = if k = k' then some v else m.get? k' := by
  induction m with
  | nil => simp [GoMap.set, GoMap.get?]
  | cons p rest ih =>
    obtain ⟨k0, v0⟩ := p
    by_cases h : k0 = k
    · subst h
      by_cases h2 : k0 = k' <;> simp [GoMap.set, GoMap.get?, h2]
    · by_cases h2 : k0 = k'
      · subst h2
        have h3 : ¬ k = k0 := fun e => h e.symm
        simp [GoMap.set, GoMap.get?, h, h3]
      · simp [GoMap.set, GoMap.get?, h, h2, ih]

/-! ## Lemmas on strings -/

theorem dropWhile_isSpace_append (l r : Str) (h : ∀ c ∈ l, isSpace c = true) :
    (l ++ r).dropWhile isSpace = r.dropWhile isSpace := by
  induction l with
  | nil => rfl
  | cons a l ih =>
    have ha : isSpace a = true := h a (List.mem_cons_self a l)
    rw [List.cons_append, List.dropWhile_cons_of_pos ha]
    exact ih (fun c hc => h c (List.mem_cons_of_mem a hc))

/-- `TrimSpace` returns the text between the white space around it. -/
theorem TrimSpace_sandwich (lead trail body : Str) (a z : Char)
    (hl : ∀ c ∈ lead, isSpace c = true) (ht : ∀ c ∈ trail, isSpace c = true)
    (ha : isSpace a = false) (hz : isSpace z = false) :
    TrimSpace (lead ++ a :: (body ++ z :: trail)) = a :: (body ++ [z]) := by
  unfold TrimSpace
  have ha' : ¬ isSpace a = true := by simp [ha]
  have hz' : ¬ isSpace z = true := by simp [hz]
  rw [dropWhile_isSpace_append lead _ hl, List.dropWhile_cons_of_neg ha']
  have hrev : (a :: (body ++ z :: trail)).reverse = trail.reverse ++ z :: (a :: body).reverse := by
    simp
  rw [hrev, dropWhile_isSpace_append trail.reverse _
    (fun c hc => ht c (List.mem_reverse.1 hc)), List.dropWhile_cons_of_neg hz']
  simp

/-- A content whose trimmed text does not begin with `---` has no frontmatter:
the first return of `Parse`. -/
theorem Parse_no_opening (E : Externals) (content : Str)
    (h : HasPrefix (TrimSpace content) frontmatter.delimiter = false) :
    frontmatter.Parse E content = ({ Body := content }, some GoError.noFrontmatter) := by
  unfold frontmatter.Parse
  simp [h]

/-- With the opening delimiter and no `\n---` after it, `Parse` reports no
frontmatter: its second return. -/
theorem Parse_no_closing (E : Externals) (content : Str)
    (h : HasPrefix (TrimSpace content) frontmatter.delimiter = true)
    (hidx : Index ((TrimSpace content).drop frontmatter.delimiter.length)
      ("\n".toList ++ frontmatter.delimiter) = none) :
    frontmatter.Parse E content = ({ Body := content }, some GoError.noFrontmatter) := by
  unfold frontmatter.Parse
  simp only [h, hidx, Bool.not_true, Bool.false_eq_true, if_false]

/-- With both delimiters, `Parse` decodes the text between them. -/
theorem Parse_both (E : Externals) (content rest : Str) (idx : Nat)
    (h : HasPrefix (TrimSpace content) frontmatter.delimiter = true)
    (hrest : (TrimSpace content).drop frontmatter.delimiter.length = rest)
    (hidx : Index rest ("\n".toList ++ frontmatter.delimiter) = some idx) :
    frontmatter.Parse E content =
      match E.yamlUnmarshal (rest.take idx) with
      | .error msg => ({}, some (GoError.yaml msg))
      | .ok m =>
        (⟨m, TrimLeft (rest.drop (idx + ("\n".toList ++ frontmatter.delimiter).length))
          "\r\n".toList⟩, none) := by
  unfold frontmatter.Parse
  simp only [h, hrest, hidx, Bool.not_true, Bool.false_eq_true, if_false]

/-! ## Lemmas on `Validate` -/

theorem Validate_loop_eq {β : Type} (vars : GoMap β) (requiredVars : List Str) (acc : List Str) :
    requiredVars.foldl
        (fun missing name => if (vars.get? name).isSome then missing else missing ++ [name]) acc
      = acc ++ requiredVars.filter (fun n => decide (n ∉ vars.keys)) := by
  induction requiredVars generalizing acc with
  | nil => simp
  | cons n rest ih =>
    rw [List.foldl_cons, ih]
    by_cases h : n ∈ vars.keys
    · have h' : (vars.get? n).isSome = true := (GoMap.get?_isSome_iff vars n).2 h
      simp [h, h']
    · have h' : ¬ (vars.get? n).isSome = true := fun e => h ((GoMap.get?_isSome_iff vars n).1 e)
      simp [h, h']

/-- C1. `validator.Validate` returns `nil` exactly when every required name is
a key of `vars`, and otherwise a `MissingVarsError` whose `Missing` list is the
required names that are not keys, all of them, in their original order and with
duplicates kept; an empty `required` validates against any map, and
`Validate(["a","b","c"], {"b": x})` reports `["a","c"]`. -/
theorem Validate_collects_all_missing {β : Type} (required : List Str) (vars : GoMap β) (x : β) :
    (validator.Validate required vars = none ↔ ∀ n ∈ required, n ∈ vars.keys) ∧
    validator.Validate required vars =
      (if required.filter (fun n => decide (n ∉ vars.keys)) = [] then none
       else some ⟨required.filter (fun n => decide (n ∉ vars.keys))⟩) ∧
    validator.Validate [] vars = none ∧
    validator.Validate ["a".toList, "b".toList, "c".toList] [("b".toList, x)]
      = some ⟨["a".toList, "c".toList]⟩ := by
  have key : ∀ (req : List Str) (m : GoMap β), validator.Validate req m =
      (if req.filter (fun n => decide (n ∉ m.keys)) = [] then none
       else some ⟨req.filter (fun n => decide (n ∉ m.keys))⟩) := by
    intro req m
    unfold validator.Validate
    simp only [Validate_loop_eq, List.nil_append]
    cases hf : req.filter (fun n => decide (n ∉ m.keys)) with
    | nil => simp
    | cons a l => simp
  refine ⟨?_, key required vars, ?_, ?_⟩
  · rw [key]
    constructor
    · intro h n hn
      by_contra hk
      have hmem : n ∈ required.filter (fun n => decide (n ∉ vars.keys)) :=
        List.mem_filter.2 ⟨hn, by simpa using hk⟩
      split at h
      · rename_i he
        rw [he] at hmem
        exact absurd hmem (List.not_mem_nil _)
      · cases h
    · intro h
      have he : required.filter (fun n => decide (n ∉ vars.keys)) = [] := by
        rw [List.filter_eq_nil_iff]
        intro n hn
        simpa using h n hn
      rw [if_pos he]
  · rw [key]; simp
  · rfl

/-! ## Lemmas on the template fragment -/

theorem run_action_step (vars : GoMap Value) (c : Char) (rest acc : Str) (hc : c ≠ '}') :
    texttemplate.run vars (c :: rest) (some acc) = texttemplate.run vars rest (some (c :: acc)) := by
  conv_lhs => unfold texttemplate.run
  split <;> simp_all

theorem run_action_close (vars : GoMap Value) (rest acc : Str) :
    texttemplate.run vars ('}' :: '}' :: rest) (some acc) =
      match texttemplate.fieldOfAction acc.reverse with
      | none => none
      | some name => (texttemplate.run vars rest none).map (texttemplate.printValue (vars.get? name) ++ ·) := by
  conv_lhs => unfold texttemplate.run
  rfl

theorem run_action (vars : GoMap Value) (mid rest acc : Str) (h : ∀ c ∈ mid, c ≠ '}') :
    texttemplate.run vars (mid ++ '}' :: '}' :: rest) (some acc) =
      texttemplate.run vars ('}' :: '}' :: rest) (some (mid.reverse ++ acc)) := by
  induction mid generalizing acc with
  | nil => rfl
  | cons c mid ih =>
    rw [List.cons_append, run_action_step vars c _ acc (h c (List.mem_cons_self c mid)),
      ih _ (fun d hd => h d (List.mem_cons_of_mem c hd))]
    simp

theorem fieldOfAction_ident (c : Char) (name : Str) (hc : texttemplate.isIdentChar c = true)
    (hid : ∀ d ∈ name, texttemplate.isIdentChar d = true) (hdig : c.isDigit = false) :
    texttemplate.fieldOfAction (" .".toList ++ (c :: name) ++ " ".toList) = some (c :: name) := by
  have h1 : (" .".toList ++ (c :: name) ++ " ".toList).dropWhile texttemplate.isBlank
      = '.' :: ((c :: name) ++ [' ']) := by
    show List.dropWhile texttemplate.isBlank (' ' :: '.' :: ((c :: name) ++ [' '])) = _
    rw [List.dropWhile_cons_of_pos (by decide), List.dropWhile_cons_of_neg (by decide)]
  have hall : ∀ d ∈ c :: name, texttemplate.isIdentChar d = true := by
    intro d hd
    rcases List.mem_cons.1 hd with h | h
    · rw [h]; exact hc
    · exact hid d h
  have h2 : ((c :: name) ++ [' ']).takeWhile texttemplate.isIdentChar = c :: name := by
    rw [List.takeWhile_append_of_pos hall]
    simp [List.takeWhile, show texttemplate.isIdentChar ' ' = false by decide]
  have h3 : ((c :: name) ++ [' ']).dropWhile texttemplate.isIdentChar = [' '] := by
    rw [List.dropWhile_append_of_pos hall]
    simp [List.dropWhile, show texttemplate.isIdentChar ' ' = false by decide]
  unfold texttemplate.fieldOfAction
  rw [h1]
  simp only [h2, h3, hdig]
  simp [texttemplate.isBlank]

/-- The fragment renders `{{ .name }}` as the text printed for the value of
`name`. -/
theorem run_field (vars : GoMap Value) (c : Char) (name : Str)
    (hc : texttemplate.isIdentChar c = true)
    (hid : ∀ d ∈ name, texttemplate.isIdentChar d = true) (hdig : c.isDigit = false) :
    texttemplate.run vars ("\x7b\x7b .".toList ++ (c :: name) ++ " \x7d\x7d".toList) none
      = some (texttemplate.printValue (vars.get? (c :: name))) := by
  have hshape : "\x7b\x7b .".toList ++ (c :: name) ++ " \x7d\x7d".toList
      = '{' :: '{' :: ((" .".toList ++ (c :: name) ++ " ".toList) ++ '}' :: '}' :: []) := by
    simp [List.append_assoc]
  have hopen : ∀ rest : Str, texttemplate.run vars ('{' :: '{' :: rest) none
      = texttemplate.run vars rest (some []) := by
    intro rest
    conv_lhs => unfold texttemplate.run
    rfl
  have hmid : ∀ d ∈ " .".toList ++ (c :: name) ++ " ".toList, d ≠ '}' := by
    intro d hd he
    subst he
    simp only [List.mem_append, List.mem_cons] at hd
    rcases hd with (hd | hd | hd) | hd
    · revert hd; decide
    · rw [← hd] at hc; revert hc; decide
    · have := hid _ hd; revert this; decide
    · revert hd; decide
  have hend : texttemplate.run vars [] none = some [] := by
    conv_lhs => unfold texttemplate.run
  rw [hshape, hopen, run_action vars _ _ _ hmid, run_action_close, List.append_nil,
    List.reverse_reverse, fieldOfAction_ident c name hc hid hdig]
  simp [hend]

/-- The library of the examples renders field references. -/
theorem exampleExternals_rendersFields : exampleExternals.RendersFields := by
  intro body vars out h
  show (match ([] : GoMap Str), texttemplate.run vars body none with
    | [], some out => Except.ok out
    | _, _ => Except.error (TemplateFailure.parse "template: not an example".toList))
    = Except.ok out
  rw [h]

/-! ## Lemmas on `engine.Render` -/

/-- Without frontmatter, `Render` renders the whole content with empty
metadata. -/
theorem Render_plain (E : Externals) (content : Str) (vars : GoMap Value)
    (includes : GoMap Str) (p : frontmatter.Result) (e : GoError) (out : Str)
    (hp : frontmatter.Parse E content = (p, some e))
    (ht : E.template content vars includes = .ok out) :
    engine.Render E content vars includes = (⟨out, {}⟩, none) := by
  unfold engine.Render
  simp [hp, ht]

/-- With frontmatter, `Render` renders the body and returns the metadata. -/
theorem Render_frontmatter (E : Externals) (content : Str) (vars : GoMap Value)
    (includes : GoMap Str) (p : frontmatter.Result) (out : Str)
    (hp : frontmatter.Parse E content = (p, none))
    (ht : E.template p.Body vars includes = .ok out) :
    engine.Render E content vars includes = (⟨out, p.Meta⟩, none) := by
  unfold engine.Render
  simp [hp, ht]

/-! ## Lemmas on field references -/

theorem run_text_step (vars : GoMap Value) (c : Char) (rest : Str) (hc : c ≠ '{') :
    texttemplate.run vars (c :: rest) none = (texttemplate.run vars rest none).map (c :: ·) := by
  conv_lhs => unfold texttemplate.run
  split <;> simp_all

/-- Literal text without a brace is copied to the output. -/
theorem run_text (vars : GoMap Value) (pre rest : Str) (h : ∀ c ∈ pre, c ≠ '{') :
    texttemplate.run vars (pre ++ rest) none
      = (texttemplate.run vars rest none).map (pre ++ ·) := by
  induction pre with
  | nil => simp
  | cons c pre ih =>
    rw [List.cons_append, run_text_step vars c _ (h c (List.mem_cons_self c pre)),
      ih (fun d hd => h d (List.mem_cons_of_mem c hd))]
    cases texttemplate.run vars rest none <;> simp

/-- Literal text followed by a reference to a string variable. -/
theorem run_text_field (vars : GoMap Value) (pre : Str) (c : Char) (name s : Str)
    (hpre : ∀ d ∈ pre, d ≠ '{')
    (hc : texttemplate.isIdentChar c = true)
    (hid : ∀ d ∈ name, texttemplate.isIdentChar d = true) (hdig : c.isDigit = false)
    (hget : vars.get? (c :: name) = some (Value.str s)) :
    texttemplate.run vars (pre ++ ("\x7b\x7b .".toList ++ (c :: name) ++ " \x7d\x7d".toList)) none
      = some (pre ++ s) := by
  rw [run_text vars pre _ hpre, run_field vars c name hc hid hdig, hget]
  rfl

/-- The content `{{ .name }}` has no frontmatter. -/
theorem Parse_field (E : Externals) (c : Char) (name : Str) :
    frontmatter.Parse E ("\x7b\x7b .".toList ++ (c :: name) ++ " \x7d\x7d".toList) =
      ({ Body := "\x7b\x7b .".toList ++ (c :: name) ++ " \x7d\x7d".toList }, some GoError.noFrontmatter) := by
  have htrim : TrimSpace ("\x7b\x7b .".toList ++ (c :: name) ++ " \x7d\x7d".toList)
      = "\x7b\x7b .".toList ++ (c :: name) ++ " \x7d\x7d".toList := by
    have := TrimSpace_sandwich [] [] ("\x7b .".toList ++ (c :: name) ++ " \x7d".toList) '{' '}'
      (by simp) (by simp) (by decide) (by decide)
    simpa [List.append_assoc] using this
  exact Parse_no_opening E _
    (by rw [htrim]; simp [HasPrefix, frontmatter.delimiter, List.isPrefixOf])

/-- The expression `{{ .name }}` resolves to the string bound to `name`. -/
theorem resolveVar_field (E : Externals) (hE : E.RendersFields) (vars : GoMap Value)
    (c : Char) (name s : Str)
    (hc : texttemplate.isIdentChar c = true)
    (hid : ∀ d ∈ name, texttemplate.isIdentChar d = true) (hdig : c.isDigit = false)
    (hget : vars.get? (c :: name) = some (Value.str s)) :
    chain.resolveVar E ("\x7b\x7b .".toList ++ (c :: name) ++ " \x7d\x7d".toList) vars = s := by
  have hrun := run_text_field vars [] c name s (by simp) hc hid hdig hget
  have hrender := Render_plain E _ vars [] _ _ _ (Parse_field E c name)
    (hE _ _ _ (by simpa using hrun))
  unfold chain.resolveVar
  rw [hrender]

/-! ## Lemmas on the loop of `chain.Execute` -/

theorem loop_nil (E : Externals) (reg : registry.Registry) (i : Nat) (vars : GoMap Value)
    (inter : GoMap Str) (last : Str) :
    chain.Execute.loop E reg i [] vars inter last = (⟨last, inter⟩, none) := by
  simp only [chain.Execute.loop]

/-- A step whose template is not in the registry aborts the loop. -/
theorem loop_not_found (E : Externals) (reg : registry.Registry) (i : Nat) (step : chain.Step)
    (steps : List chain.Step) (vars : GoMap Value) (inter : GoMap Str) (last : Str)
    (h : reg.templates.get? step.Template = none) :
    chain.Execute.loop E reg i (step :: steps) vars inter last =
      ({}, some (.wrap ("step ".toList ++ fmtInt (i + 1) ++ ": ".toList)
        (.errorf ("template ".toList ++ E.quote step.Template ++ " not found".toList)))) := by
  simp only [chain.Execute.loop, registry.Registry.Get, h]

/-- A step that is looked up, validated and rendered hands the loop on. -/
theorem loop_step (E : Externals) (reg : registry.Registry) (i : Nat) (step : chain.Step)
    (steps : List chain.Step) (vars : GoMap Value) (inter : GoMap Str) (last : Str)
    (tmpl : registry.Template) (r : engine.RenderResult)
    (hget : reg.templates.get? step.Template = some tmpl)
    (hval : (if tmpl.Meta.RequiredVars.length > 0
      then validator.Validate tmpl.Meta.RequiredVars (chain.stepVars E step vars) else none)
      = none)
    (hr : engine.Render E tmpl.Content (chain.stepVars E step vars) reg.Includes = (r, none)) :
    chain.Execute.loop E reg i (step :: steps) vars inter last =
      chain.Execute.loop E reg (i + 1) steps (chain.ambientAfter step r.Output vars)
        (if step.OutputVar ≠ [] then inter.set step.OutputVar r.Output else inter) r.Output := by
  simp only [chain.Execute.loop, registry.Registry.Get, hget, hval, hr, chain.ambientAfter]
  split <;> rfl

/-- A loop that ends without error has looked up, validated and rendered its
first step. -/
theorem loop_cons_inv (E : Externals) (reg : registry.Registry) (i : Nat) (step : chain.Step)
    (steps : List chain.Step) (vars : GoMap Value) (inter : GoMap Str) (last : Str)
    (res : chain.Result)
    (h : chain.Execute.loop E reg i (step :: steps) vars inter last = (res, none)) :
    ∃ (tmpl : registry.Template) (r : engine.RenderResult),
      reg.templates.get? step.Template = some tmpl ∧
      (if tmpl.Meta.RequiredVars.length > 0
        then validator.Validate tmpl.Meta.RequiredVars (chain.stepVars E step vars) else none)
        = none ∧
      engine.Render E tmpl.Content (chain.stepVars E step vars) reg.Includes = (r, none) := by
  cases hget : reg.templates.get? step.Template with
  | none =>
    rw [loop_not_found E reg i step steps vars inter last hget] at h
    simp at h
  | some tmpl =>
    rcases hr : engine.Render E tmpl.Content (chain.stepVars E step vars) reg.Includes
      with ⟨r, e⟩
    have hval : (if tmpl.Meta.RequiredVars.length > 0
        then validator.Validate tmpl.Meta.RequiredVars (chain.stepVars E step vars) else none)
        = none := by
      cases hv : (if tmpl.Meta.RequiredVars.length > 0
        then validator.Validate tmpl.Meta.RequiredVars (chain.stepVars E step vars) else none) with
      | none => rfl
      | some err =>
        simp only [chain.Execute.loop, registry.Registry.Get, hget, hv] at h
        simp at h
    cases e with
    | some err =>
      simp only [chain.Execute.loop, registry.Registry.Get, hget, hval, hr] at h
      simp at h
    | none => exact ⟨tmpl, r, rfl, hval, hr⟩

/-- Steps that run without error hand the loop on to the steps after them. -/
theorem loop_append (E : Externals) (reg : registry.Registry) (pre : List chain.Step) :
    ∀ (i : Nat) (vars : GoMap Value) (inter : GoMap Str) (last : Str) (res : chain.Result),
      chain.Execute.loop E reg i pre vars inter last = (res, none) →
      ∃ (vars' : GoMap Value) (inter' : GoMap Str) (last' : Str),
        ∀ rest : List chain.Step,
          chain.Execute.loop E reg i (pre ++ rest) vars inter last =
            chain.Execute.loop E reg (i + pre.length) rest vars' inter' last' := by
  induction pre with
  | nil =>
    intro i vars inter last res _
    exact ⟨vars, inter, last, fun rest => rfl⟩
  | cons step pre ih =>
    intro i vars inter last res h
    obtain ⟨tmpl, r, hget, hval, hr⟩ := loop_cons_inv E reg i step pre vars inter last res h
    rw [loop_step E reg i step pre vars inter last tmpl r hget hval hr] at h
    obtain ⟨vars', inter', last', hrest⟩ := ih _ _ _ _ _ h
    refine ⟨vars', inter', last', fun rest => ?_⟩
    rw [List.cons_append, loop_step E reg i step (pre ++ rest) vars inter last tmpl r hget hval hr,
      hrest rest]
    congr 1
    simp [Nat.add_comm, Nat.add_left_comm]

theorem lastDeclared_cons (k : Str) (step : chain.Step) (steps : List chain.Step) (out : Str)
    (outs : List Str) :
    chain.lastDeclared k (step :: steps) (out :: outs) =
      (chain.lastDeclared k steps outs).or (if step.OutputVar = k then some out else none) := by
  unfold chain.lastDeclared
  rw [List.zip_cons_cons, List.reverse_cons, List.find?_append, Option.map_or']
  congr 1
  by_cases h : step.OutputVar = k <;> simp [List.find?, h]

theorem rendersTo_length (E : Externals) (reg : registry.Registry) (steps : List chain.Step) :
    ∀ (vars : GoMap Value) (outs : List Str),
      chain.rendersTo E reg vars steps outs = true → outs.length = steps.length := by
  induction steps with
  | nil =>
    intro vars outs h
    cases outs with
    | nil => rfl
    | cons o os => simp [chain.rendersTo] at h
  | cons s steps ih =>
    intro vars outs h
    cases outs with
    | nil => simp [chain.rendersTo] at h
    | cons o os =>
      simp only [chain.rendersTo, Bool.and_eq_true] at h
      simp [ih _ _ h.2]

/-- The result of a loop that ends without error, in terms of the outputs of
its steps. -/
theorem loop_result (E : Externals) (reg : registry.Registry) (steps : List chain.Step) :
    ∀ (i : Nat) (vars : GoMap Value) (inter : GoMap Str) (last : Str) (res : chain.Result),
      chain.Execute.loop E reg i steps vars inter last = (res, none) →
      ∃ outs : List Str,
        chain.rendersTo E reg vars steps outs = true ∧
        res.Final = outs.getLast?.getD last ∧
        ∀ k : Str, res.Intermediates.get? k =
          if k = [] then inter.get? k else (chain.lastDeclared k steps outs).or (inter.get? k) := by
  induction steps with
  | nil =>
    intro i vars inter last res h
    rw [loop_nil] at h
    cases h
    refine ⟨[], rfl, rfl, fun k => ?_⟩
    by_cases hk : k = [] <;> simp [hk, chain.lastDeclared]
  | cons step steps ih =>
    intro i vars inter last res h
    obtain ⟨tmpl, r, hget, hval, hr⟩ := loop_cons_inv E reg i step steps vars inter last res h
    rw [loop_step E reg i step steps vars inter last tmpl r hget hval hr] at h
    obtain ⟨outs, hrend, hfinal, hinter⟩ := ih _ _ _ _ _ h
    refine ⟨r.Output :: outs, ?_, ?_, fun k => ?_⟩
    · simp only [chain.rendersTo, hget, hr, hrend, Option.isNone_none, decide_True,
        Bool.and_self]
    · rw [hfinal, List.getLast?_cons]
      rfl
    · rw [hinter k, lastDeclared_cons]
      by_cases hk : k = []
      · simp only [hk, if_true]
        by_cases ho : step.OutputVar = []
        · simp [ho]
        · simp only [ne_eq, ho, not_false_eq_true, if_true, GoMap.get?_set, if_false]
      · simp only [hk, if_false]
        by_cases ho : step.OutputVar = []
        · simp [ho, hk, Option.or_assoc]
        · simp only [ne_eq, ho, not_false_eq_true, if_true, GoMap.get?_set, Option.or_assoc]
          by_cases he : step.OutputVar = k <;> simp [he]

theorem lastDeclared_isSome (k : Str) (steps : List chain.Step) :
    ∀ outs : List Str, outs.length = steps.length →
      ((chain.lastDeclared k steps outs).isSome = true ↔
        k ∈ steps.map (fun s => s.OutputVar)) := by
  induction steps with
  | nil =>
    intro outs _
    simp [chain.lastDeclared]
  | cons s steps ih =>
    intro outs hlen
    cases outs with
    | nil => simp at hlen
    | cons o os =>
      have hlen' : os.length = steps.length := by simpa using hlen
      rw [lastDeclared_cons, List.map_cons, List.mem_cons, ← ih os hlen']
      cases hl : chain.lastDeclared k steps os with
      | some x => simp
      | none =>
        by_cases he : s.OutputVar = k
        · simp [he]
        · have he' : ¬ k = s.OutputVar := fun e => he e.symm
          simp [he, he']

/-! ## `frontmatter.Parse` -/

/-- C4. At the content `---name: a`, line feed, `---`, line feed, `body`,
whose first line is not a line of three hyphens alone, `frontmatter.Parse`
does not return `ErrNoFrontmatter` with the content as body: the prefix `---`
is taken for the opening delimiter, `name: a` is handed to the decoder, and
the result is the decoder's error with an empty body, or its metadata with
the body `body`. -/
theorem Parse_opening_matched_as_prefix (E : Externals) :
    (frontmatter.Parse E "---name: a\n---\nbody".toList).2 ≠ some GoError.noFrontmatter ∧
    (frontmatter.Parse E "---name: a\n---\nbody".toList).1.Body
      ≠ "---name: a\n---\nbody".toList ∧
    frontmatter.Parse E "---name: a\n---\nbody".toList =
      (match E.yamlUnmarshal "name: a".toList with
       | .error msg => ({}, some (GoError.yaml msg))
       | .ok m => (⟨m, "body".toList⟩, none)) := by
  have hp := Parse_both E "---name: a\n---\nbody".toList "name: a\n---\nbody".toList 7
    (by decide) (by decide) (by decide)
  have hp' : frontmatter.Parse E "---name: a\n---\nbody".toList =
      (match E.yamlUnmarshal "name: a".toList with
       | .error msg => ({}, some (GoError.yaml msg))
       | .ok m => (⟨m, "body".toList⟩, none)) := hp
  rw [hp']
  cases E.yamlUnmarshal "name: a".toList with
  | error msg =>
    refine ⟨by simp, ?_, rfl⟩
    show ([] : Str) ≠ "---name: a\n---\nbody".toList
    decide
  | ok m =>
    refine ⟨by simp, ?_, rfl⟩
    show "body".toList ≠ "---name: a\n---\nbody".toList
    decide

/-- C5. At the content `---`, `name: a`, `---oops` (three lines), which has the
opening delimiter and no later line that is exactly `---`, `frontmatter.Parse`
does not return `ErrNoFrontmatter`: the text `---` that begins the third line
is taken for the closing delimiter, and with a decoder that accepts `name: a`
the first two lines become metadata and the body is `oops`. -/
theorem Parse_closing_matched_as_prefix (E : Externals) :
    (frontmatter.Parse E "---\nname: a\n---oops".toList).2 ≠ some GoError.noFrontmatter ∧
    frontmatter.Parse exampleExternals "---\nname: a\n---oops".toList =
      (⟨{ Name := "a".toList }, "oops".toList⟩, none) := by
  refine ⟨?_, by decide⟩
  have hp := Parse_both E "---\nname: a\n---oops".toList "\nname: a\n---oops".toList 8
    (by decide) (by decide) (by decide)
  rw [hp]
  cases E.yamlUnmarshal (List.take 8 "\nname: a\n---oops".toList) with
  | error msg => simp
  | ok m => simp

/-- C6, as stated, fails. At the content `---`, `name: a`, `---`, `body`
followed by a line feed, the text of the original content after the closing
delimiter, leading line breaks stripped, is `body` with its line feed, and
`frontmatter.Parse` returns the body `body` without it. -/
theorem Parse_body_drops_trailing_space :
    frontmatter.Parse exampleExternals "---\nname: a\n---\nbody\n".toList =
      (⟨{ Name := "a".toList }, "body".toList⟩, none) ∧
    frontmatter.bodyOfOriginal "---\nname: a\n---\nbody\n".toList = some "body\n".toList ∧
    (frontmatter.Parse exampleExternals "---\nname: a\n---\nbody\n".toList).1.Body
      ≠ "body\n".toList := by
  decide

/-- C6, amended. A content is white space `lead`, the opening line `---`, the
metadata text `raw`, the closing line `---` (the first line feed followed by
`---` after the opening), a text `after` that does not end in white space, and
white space `trail`. When the decoder accepts `raw`, `frontmatter.Parse`
returns its metadata and the body `after` with leading line breaks stripped:
the body is cut from the trimmed content and holds nothing of `trail`. -/
theorem Parse_body_of_trimmed_content (E : Externals) (lead raw after trail : Str)
    (m : frontmatter.Metadata)
    (hl : ∀ c ∈ lead, isSpace c = true) (ht : ∀ c ∈ trail, isSpace c = true)
    (_hopening : raw = [] ∨ "\n".toList <+: raw ∨ "\r\n".toList <+: raw)
    (_hclosing : after = [] ∨ "\n".toList <+: after ∨ "\r\n".toList <+: after)
    (hafter : ∀ c, after.getLast? = some c → isSpace c = false)
    (hidx : Index (raw ++ "\n---".toList ++ after) "\n---".toList = some raw.length)
    (hyaml : E.yamlUnmarshal raw = .ok m) :
    frontmatter.Parse E (lead ++ "---".toList ++ raw ++ "\n---".toList ++ after ++ trail) =
      (⟨m, TrimLeft after "\r\n".toList⟩, none) := by
  have htrim : TrimSpace (lead ++ "---".toList ++ raw ++ "\n---".toList ++ after ++ trail)
      = "---".toList ++ raw ++ "\n---".toList ++ after := by
    rcases List.eq_nil_or_concat after with h0 | ⟨a', z, hz⟩
    · subst h0
      have := TrimSpace_sandwich lead trail ("--".toList ++ raw ++ "\n--".toList) '-' '-' hl ht
        (by decide) (by decide)
      simpa [List.append_assoc] using this
    · subst hz
      have hzs : isSpace z = false := hafter z (by simp)
      have := TrimSpace_sandwich lead trail ("--".toList ++ raw ++ "\n---".toList ++ a') '-' z hl ht
        (by decide) hzs
      simpa [List.append_assoc] using this
  have hp := Parse_both E (lead ++ "---".toList ++ raw ++ "\n---".toList ++ after ++ trail)
    (raw ++ "\n---".toList ++ after) raw.length
    (by rw [htrim]; simp [HasPrefix, frontmatter.delimiter, List.isPrefixOf])
    (by rw [htrim]; simp [frontmatter.delimiter])
    (by simpa [frontmatter.delimiter] using hidx)
  rw [hp]
  have htake : List.take raw.length (raw ++ "\n---".toList ++ after) = raw := by
    simp [List.append_assoc]
  have hdrop : List.drop (raw.length + ("\n".toList ++ frontmatter.delimiter).length)
      (raw ++ "\n---".toList ++ after) = after := by
    have : ("\n".toList ++ frontmatter.delimiter).length = "\n---".toList.length := by decide
    rw [this, ← List.drop_drop, List.append_assoc, List.drop_left, List.drop_left]
  rw [htake, hdrop, hyaml]

/-- The amended C6 at a content with white space on both sides: the body is
`body`, without the white space that ends the content. -/
theorem Parse_body_of_trimmed_content_witness :
    frontmatter.Parse exampleExternals
        ("  ".toList ++ "---".toList ++ "\nname: a".toList ++ "\n---".toList
          ++ "\r\n\nbody".toList ++ " \n\n".toList) =
      (⟨{ Name := "a".toList }, TrimLeft "\r\n\nbody".toList "\r\n".toList⟩, none) ∧
    TrimLeft "\r\n\nbody".toList "\r\n".toList = "body".toList :=
  ⟨Parse_body_of_trimmed_content exampleExternals "  ".toList "\nname: a".toList
      "\r\n\nbody".toList " \n\n".toList { Name := "a".toList }
      (by decide) (by decide) (Or.inr (Or.inl (by decide))) (Or.inr (Or.inr (by decide)))
      (by decide) (by decide) rfl, by decide⟩

/-! ## `engine.Render` -/

/-- C7, as stated, fails. The template `{{ .missing }}` rendered with an empty
variable map does not fail: `engine.Render` returns a nil error and the output
`<no value>`. -/
theorem Render_missing_key_no_error :
    GoMap.get? ([] : GoMap Value) "missing".toList = none ∧
    (engine.Render exampleExternals "\x7b\x7b .missing \x7d\x7d".toList [] []).2 = none ∧
    (engine.Render exampleExternals "\x7b\x7b .missing \x7d\x7d".toList [] []).1.Output
      = "<no value>".toList := by
  decide

/-- C7, amended. For every identifier `name` that is not a key of `vars`, the
template `{{ .name }}` renders without error, with the output `<no value>` and
empty metadata (no include registered, the library rendering field references
as `text/template` does). -/
theorem Render_missing_key_prints_no_value (E : Externals) (hE : E.RendersFields)
    (c : Char) (name : Str) (vars : GoMap Value)
    (hc : texttemplate.isIdentChar c = true)
    (hid : ∀ d ∈ name, texttemplate.isIdentChar d = true) (hdig : c.isDigit = false)
    (hmiss : (c :: name) ∉ vars.keys) :
    engine.Render E ("\x7b\x7b .".toList ++ (c :: name) ++ " \x7d\x7d".toList) vars []
      = (⟨"<no value>".toList, {}⟩, none) := by
  have hget : vars.get? (c :: name) = none := by
    cases hg : vars.get? (c :: name) with
    | none => rfl
    | some v =>
      exact absurd ((GoMap.get?_isSome_iff vars (c :: name)).1 (by simp [hg])) hmiss
  have hrun := run_field vars c name hc hid hdig
  rw [hget] at hrun
  have htrim : TrimSpace ("\x7b\x7b .".toList ++ (c :: name) ++ " \x7d\x7d".toList)
      = "\x7b\x7b .".toList ++ (c :: name) ++ " \x7d\x7d".toList := by
    have := TrimSpace_sandwich [] [] ("\x7b .".toList ++ (c :: name) ++ " \x7d".toList) '{' '}'
      (by simp) (by simp) (by decide) (by decide)
    simpa [List.append_assoc] using this
  have hparse := Parse_no_opening E ("\x7b\x7b .".toList ++ (c :: name) ++ " \x7d\x7d".toList)
    (by rw [htrim]; simp [HasPrefix, frontmatter.delimiter, List.isPrefixOf])
  exact Render_plain E _ vars [] _ _ _ hparse (hE _ _ _ hrun)

/-- The amended C7 at the template `{{ .missing }}` and the variables
`{name: "World"}`. -/
theorem Render_missing_key_prints_no_value_witness :
    engine.Render exampleExternals ("\x7b\x7b .".toList ++ ('m' :: "issing".toList) ++ " \x7d\x7d".toList)
        [("name".toList, Value.str "World".toList)] []
      = (⟨"<no value>".toList, {}⟩, none) :=
  Render_missing_key_prints_no_value exampleExternals exampleExternals_rendersFields
    'm' "issing".toList [("name".toList, Value.str "World".toList)]
    (by decide) (by decide) (by decide) (by decide)

/-- C8. At the content `---`, `name: a: b`, `---`, `Hello` (four lines), whose
metadata text the decoder rejects, `frontmatter.Parse` returns the decoder's
error, and `engine.Render` returns no error: it renders the whole content,
delimiters and metadata text included, with empty metadata. -/
theorem Render_swallows_metadata_error :
    (frontmatter.Parse exampleExternals "---\nname: a: b\n---\nHello".toList).2 =
      some (GoError.yaml "yaml: line 2: mapping values are not allowed in this context".toList) ∧
    engine.Render exampleExternals "---\nname: a: b\n---\nHello".toList [] [] =
      (⟨"---\nname: a: b\n---\nHello".toList, {}⟩, none) := by
  decide

/-- C9. When `engine.Render` succeeds: if `frontmatter.Parse` succeeds on the
same content, the metadata of the result is the metadata `Parse` returns and
the output is the rendering of the body `Parse` returns; if `Parse` reports no
frontmatter, the metadata is empty and the output is the rendering of the
whole content. -/
theorem Render_meta_round_trip (E : Externals) (content : Str) (vars : GoMap Value)
    (includes : GoMap Str) (r : engine.RenderResult)
    (h : engine.Render E content vars includes = (r, none)) :
    (∀ p : frontmatter.Result, frontmatter.Parse E content = (p, none) →
      r.Meta = p.Meta ∧ E.template p.Body vars includes = .ok r.Output) ∧
    ((frontmatter.Parse E content).2 = some GoError.noFrontmatter →
      r.Meta = {} ∧ E.template content vars includes = .ok r.Output) := by
  unfold engine.Render at h
  constructor
  · intro p hp
    rw [hp] at h
    simp only [Option.isSome_none, Bool.false_eq_true, if_false] at h
    cases ht : E.template p.Body vars includes with
    | error f =>
      rw [ht] at h
      cases f <;> simp at h
    | ok out =>
      rw [ht] at h
      simp only [Prod.mk.injEq, and_true] at h
      rw [← h]
      exact ⟨rfl, rfl⟩
  · intro hp
    rcases hq : frontmatter.Parse E content with ⟨p, e⟩
    rw [hq] at hp h
    simp only at hp
    subst hp
    simp only [Option.isSome_some, if_true] at h
    cases ht : E.template content vars includes with
    | error f =>
      rw [ht] at h
      cases f <;> simp at h
    | ok out =>
      rw [ht] at h
      simp only [Prod.mk.injEq, and_true] at h
      rw [← h]
      exact ⟨rfl, rfl⟩

/-- C9 at the content `---`, `name: a`, `---`, `Hi {{ .x }}` and the
variables `{x: "there"}`: the render succeeds with the output `Hi there` and
the metadata that `Parse` returns. -/
theorem Render_meta_round_trip_witness :
    engine.Render exampleExternals "---\nname: a\n---\nHi \x7b\x7b .x \x7d\x7d".toList
        [("x".toList, Value.str "there".toList)] []
      = (⟨"Hi there".toList, { Name := "a".toList }⟩, none) ∧
    ((∀ p : frontmatter.Result,
        frontmatter.Parse exampleExternals "---\nname: a\n---\nHi \x7b\x7b .x \x7d\x7d".toList = (p, none) →
        ({ Name := "a".toList } : frontmatter.Metadata) = p.Meta ∧
        exampleExternals.template p.Body [("x".toList, Value.str "there".toList)] []
          = .ok "Hi there".toList) ∧
      ((frontmatter.Parse exampleExternals "---\nname: a\n---\nHi \x7b\x7b .x \x7d\x7d".toList).2
          = some GoError.noFrontmatter →
        ({ Name := "a".toList } : frontmatter.Metadata) = {} ∧
        exampleExternals.template "---\nname: a\n---\nHi \x7b\x7b .x \x7d\x7d".toList
          [("x".toList, Value.str "there".toList)] [] = .ok "Hi there".toList)) :=
  ⟨by decide,
   Render_meta_round_trip exampleExternals "---\nname: a\n---\nHi \x7b\x7b .x \x7d\x7d".toList
     [("x".toList, Value.str "there".toList)] []
     ⟨"Hi there".toList, { Name := "a".toList }⟩ (by decide)⟩

/-! ## `chain.Execute` -/

/-- C2. For every string `v`: with a registry holding the template `step_one`
(required variable `input`, body `Processed: {{ .input }}`) and the template
`step_two` (required variable `data`, body `Final: {{ .data }}`) and no
include, `chain.Execute` on the chain of the two steps (`input` bound to
`{{ .user_input }}` and captured as `step_one_out`, `data` bound to
`{{ .step_one_out }}` and captured as `final_out`) with the initial variables
`{user_input: v}` succeeds; the final output is `Final: Processed: ` followed
by `v`, and the intermediates are `step_one_out`, bound to `Processed: `
followed by `v`, and `final_out`, bound to the final output. -/
theorem Execute_two_step_pipeline (E : Externals) (hE : E.RendersFields)
    (reg : registry.Registry) (t1 t2 : registry.Template) (chainName v : Str)
    (hinc : reg.includes = [])
    (h1 : reg.templates.get? "step_one".toList = some t1)
    (h2 : reg.templates.get? "step_two".toList = some t2)
    (hr1 : t1.Meta.RequiredVars = ["input".toList])
    (hr2 : t2.Meta.RequiredVars = ["data".toList])
    (hp1 : frontmatter.Parse E t1.Content
      = (⟨t1.Meta, "Processed: \x7b\x7b .input \x7d\x7d".toList⟩, none))
    (hp2 : frontmatter.Parse E t2.Content = (⟨t2.Meta, "Final: \x7b\x7b .data \x7d\x7d".toList⟩, none)) :
    chain.Execute E ⟨chainName, [exampleStepOne, exampleStepTwo]⟩ reg
        [("user_input".toList, Value.str v)]
      = (⟨"Final: Processed: ".toList ++ v,
          [("step_one_out".toList, "Processed: ".toList ++ v),
           ("final_out".toList, "Final: Processed: ".toList ++ v)]⟩, none) := by
  -- the first step
  have hres1 : chain.resolveVar E "\x7b\x7b .user_input \x7d\x7d".toList
      [("user_input".toList, Value.str v)] = v :=
    resolveVar_field E hE _ 'u' "ser_input".toList v (by decide) (by decide) (by decide) rfl
  have hsv1 : chain.stepVars E exampleStepOne [("user_input".toList, Value.str v)]
      = [("input".toList, Value.str v)] := by
    show [("input".toList, Value.str (chain.resolveVar E "\x7b\x7b .user_input \x7d\x7d".toList
      [("user_input".toList, Value.str v)]))] = _
    rw [hres1]
  have hrender1 : engine.Render E t1.Content [("input".toList, Value.str v)] reg.Includes
      = (⟨"Processed: ".toList ++ v, t1.Meta⟩, none) := by
    have hrun := run_text_field [("input".toList, Value.str v)] "Processed: ".toList 'i'
      "nput".toList v (by decide) (by decide) (by decide) (by decide) rfl
    rw [registry.Registry.Includes, hinc]
    exact Render_frontmatter E _ _ [] _ _ hp1 (hE _ _ _ hrun)
  have hstep1 := loop_step E reg 0 exampleStepOne [exampleStepTwo]
    [("user_input".toList, Value.str v)] [] [] t1 ⟨"Processed: ".toList ++ v, t1.Meta⟩ h1
    (by rw [hsv1, hr1]; rfl) (by rw [hsv1]; exact hrender1)
  -- the second step
  have hvars1 : chain.ambientAfter exampleStepOne ("Processed: ".toList ++ v)
      [("user_input".toList, Value.str v)]
      = [("user_input".toList, Value.str v),
         ("step_one_out".toList, Value.str ("Processed: ".toList ++ v))] := rfl
  have hres2 : chain.resolveVar E "\x7b\x7b .step_one_out \x7d\x7d".toList
      [("user_input".toList, Value.str v),
       ("step_one_out".toList, Value.str ("Processed: ".toList ++ v))]
      = "Processed: ".toList ++ v :=
    resolveVar_field E hE _ 's' "tep_one_out".toList _ (by decide) (by decide) (by decide) rfl
  have hsv2 : chain.stepVars E exampleStepTwo
      [("user_input".toList, Value.str v),
       ("step_one_out".toList, Value.str ("Processed: ".toList ++ v))]
      = [("data".toList, Value.str ("Processed: ".toList ++ v))] := by
    show [("data".toList, Value.str (chain.resolveVar E "\x7b\x7b .step_one_out \x7d\x7d".toList
      [("user_input".toList, Value.str v),
       ("step_one_out".toList, Value.str ("Processed: ".toList ++ v))]))] = _
    rw [hres2]
  have hrender2 : engine.Render E t2.Content
      [("data".toList, Value.str ("Processed: ".toList ++ v))] reg.Includes
      = (⟨"Final: ".toList ++ ("Processed: ".toList ++ v), t2.Meta⟩, none) := by
    have hrun := run_text_field [("data".toList, Value.str ("Processed: ".toList ++ v))]
      "Final: ".toList 'd' "ata".toList ("Processed: ".toList ++ v)
      (by decide) (by decide) (by decide) (by decide) rfl
    rw [registry.Registry.Includes, hinc]
    exact Render_frontmatter E _ _ [] _ _ hp2 (hE _ _ _ hrun)
  have hstep2 := loop_step E reg 1 exampleStepTwo []
    [("user_input".toList, Value.str v),
     ("step_one_out".toList, Value.str ("Processed: ".toList ++ v))]
    [("step_one_out".toList, "Processed: ".toList ++ v)] ("Processed: ".toList ++ v)
    t2 ⟨"Final: ".toList ++ ("Processed: ".toList ++ v), t2.Meta⟩ h2
    (by rw [hsv2, hr2]; rfl) (by rw [hsv2]; exact hrender2)
  show chain.Execute.loop E reg 0 [exampleStepOne, exampleStepTwo]
    [("user_input".toList, Value.str v)] [] [] = _
  rw [hstep1, hvars1]
  show chain.Execute.loop E reg 1 [exampleStepTwo] _
    [("step_one_out".toList, "Processed: ".toList ++ v)] ("Processed: ".toList ++ v) = _
  rw [hstep2, loop_nil]
  rfl

/-- C2 at `v = "hello"`, with the registry and the chain of the tests. -/
theorem Execute_two_step_pipeline_witness :
    chain.Execute exampleExternals ⟨"test-chain".toList, [exampleStepOne, exampleStepTwo]⟩
        exampleRegistry [("user_input".toList, Value.str "hello".toList)]
      = (⟨"Final: Processed: hello".toList,
          [("step_one_out".toList, "Processed: hello".toList),
           ("final_out".toList, "Final: Processed: hello".toList)]⟩, none) :=
  Execute_two_step_pipeline exampleExternals exampleExternals_rendersFields exampleRegistry
    ⟨"step_one".toList,
      { Name := "step_one".toList, Description := "First step".toList,
        RequiredVars := ["input".toList] },
      "Processed: \x7b\x7b .input \x7d\x7d".toList,
      ("---\nname: step_one\ndescription: First step\nrequired_vars:\n  - input\n"
        ++ "---\nProcessed: \x7b\x7b .input \x7d\x7d").toList⟩
    ⟨"step_two".toList,
      { Name := "step_two".toList, Description := "Second step".toList,
        RequiredVars := ["data".toList] },
      "Final: \x7b\x7b .data \x7d\x7d".toList,
      ("---\nname: step_two\ndescription: Second step\nrequired_vars:\n  - data\n"
        ++ "---\nFinal: \x7b\x7b .data \x7d\x7d").toList⟩
    "test-chain".toList "hello".toList rfl rfl rfl rfl rfl (by decide) (by decide)

/-- C10. When the steps before step number `k` run without error and the
template of step `k` is not in the registry, `chain.Execute` returns an empty
result and the lookup error wrapped with the step number: its message is
`step k: ` (`k` in decimal, counted from 1) followed by the message of the
lookup, `template`, the quoted name, `not found`. -/
theorem Execute_missing_template_error (E : Externals) (chainName : Str)
    (pre post : List chain.Step) (step : chain.Step) (reg : registry.Registry)
    (initialVars : GoMap Value)
    (hpre : (chain.Execute E ⟨chainName, pre⟩ reg initialVars).2 = none)
    (hmiss : step.Template ∉ reg.templates.keys) :
    chain.Execute E ⟨chainName, pre ++ step :: post⟩ reg initialVars =
        ({}, some (.wrap ("step ".toList ++ fmtInt (pre.length + 1) ++ ": ".toList)
          (.errorf ("template ".toList ++ E.quote step.Template ++ " not found".toList)))) ∧
    (GoError.wrap ("step ".toList ++ fmtInt (pre.length + 1) ++ ": ".toList)
        (.errorf ("template ".toList ++ E.quote step.Template ++ " not found".toList))).Error
      = "step ".toList ++ fmtInt (pre.length + 1) ++ ": ".toList
          ++ ("template ".toList ++ E.quote step.Template ++ " not found".toList) ∧
    ("step ".toList ++ fmtInt (pre.length + 1) ++ ": ".toList) <+:
      (GoError.wrap ("step ".toList ++ fmtInt (pre.length + 1) ++ ": ".toList)
        (.errorf ("template ".toList ++ E.quote step.Template ++ " not found".toList))).Error := by
  have hget : reg.templates.get? step.Template = none := by
    cases hg : reg.templates.get? step.Template with
    | none => rfl
    | some t =>
      exact absurd ((GoMap.get?_isSome_iff reg.templates step.Template).1 (by simp [hg])) hmiss
  refine ⟨?_, rfl, List.prefix_append _ _⟩
  unfold chain.Execute at hpre ⊢
  rcases hl : chain.Execute.loop E reg 0 pre
    (List.foldl (fun m kv => GoMap.set m kv.1 kv.2) [] initialVars) [] [] with ⟨res, e⟩
  simp only [hl] at hpre
  subst hpre
  obtain ⟨vars', inter', last', hrest⟩ := loop_append E reg pre 0 _ _ _ res hl
  simp only []
  rw [hrest (step :: post), loop_not_found E reg _ step post vars' inter' last' hget]
  simp

/-- C10 at the chain of `step_one`, a step on the template `nonexistent` and
`step_two`: the error is that of step 2. -/
theorem Execute_missing_template_error_witness :
    chain.Execute exampleExternals ⟨"bad-chain".toList,
        [exampleStepOne] ++ ⟨"nonexistent".toList, [("x".toList, "y".toList)], "out".toList⟩
          :: [exampleStepTwo]⟩
        exampleRegistry [("user_input".toList, Value.str "hello".toList)] =
        ({}, some (.wrap "step 2: ".toList
          (.errorf "template \"nonexistent\" not found".toList))) ∧
    (GoError.wrap "step 2: ".toList
        (.errorf "template \"nonexistent\" not found".toList)).Error
      = "step 2: template \"nonexistent\" not found".toList ∧
    "step 2: ".toList <+:
      (GoError.wrap "step 2: ".toList
        (.errorf "template \"nonexistent\" not found".toList)).Error :=
  Execute_missing_template_error exampleExternals "bad-chain".toList [exampleStepOne]
    [exampleStepTwo] ⟨"nonexistent".toList, [("x".toList, "y".toList)], "out".toList⟩
    exampleRegistry [("user_input".toList, Value.str "hello".toList)] (by decide) (by decide)

/-- C3. Whenever `chain.Execute` succeeds on a definition with at least one
step, there are the rendered outputs of its steps, one for each step in order,
such that `Final` is the output of the last step, the keys of `Intermediates`
are exactly the non-empty `OutputVar` names of the steps, and each key is bound
to the output of the last step that declares it. -/
theorem Execute_final_and_intermediates (E : Externals) (d : chain.Definition)
    (reg : registry.Registry) (initialVars : GoMap Value) (res : chain.Result)
    (hne : d.Steps ≠ [])
    (h : chain.Execute E d reg initialVars = (res, none)) :
    ∃ outs : List Str,
      chain.rendersTo E reg (initialVars.foldl (fun m kv => m.set kv.1 kv.2) []) d.Steps outs
        = true ∧
      outs.length = d.Steps.length ∧
      outs.getLast? = some res.Final ∧
      (∀ k : Str, k ∈ res.Intermediates.keys ↔
        k ≠ [] ∧ k ∈ d.Steps.map (fun s => s.OutputVar)) ∧
      (∀ k : Str, res.Intermediates.get? k =
        if k = [] then none else chain.lastDeclared k d.Steps outs) := by
  unfold chain.Execute at h
  obtain ⟨outs, hrend, hfinal, hinter⟩ := loop_result E reg d.Steps 0 _ [] [] res h
  have hlen := rendersTo_length E reg d.Steps _ outs hrend
  have hinter' : ∀ k : Str, res.Intermediates.get? k =
      if k = [] then none else chain.lastDeclared k d.Steps outs := by
    intro k
    rw [hinter k]
    by_cases hk : k = []
    · simp [hk, GoMap.get?]
    · simp [hk, GoMap.get?, Option.or_none]
  refine ⟨outs, hrend, hlen, ?_, ?_, hinter'⟩
  · have hne' : outs ≠ [] := by
      intro e
      rw [e] at hlen
      exact hne (List.length_eq_zero.1 hlen.symm)
    rw [hfinal]
    cases hl : outs.getLast? with
    | none => exact absurd (List.getLast?_eq_none_iff.1 hl) hne'
    | some x => rfl
  · intro k
    rw [← GoMap.get?_isSome_iff, hinter' k]
    by_cases hk : k = []
    · simp [hk]
    · simp only [hk, if_false, ne_eq, not_false_eq_true, true_and]
      exact lastDeclared_isSome k d.Steps outs hlen

/-- C3 at the chain of the tests with `user_input` bound to `hello`. -/
theorem Execute_final_and_intermediates_witness :
    ∃ outs : List Str,
      chain.rendersTo exampleExternals exampleRegistry
        ([("user_input".toList, Value.str "hello".toList)].foldl
          (fun m kv => GoMap.set m kv.1 kv.2) []) [exampleStepOne, exampleStepTwo] outs = true ∧
      outs.length = [exampleStepOne, exampleStepTwo].length ∧
      outs.getLast? = some "Final: Processed: hello".toList ∧
      (∀ k : Str, k ∈ GoMap.keys [("step_one_out".toList, "Processed: hello".toList),
          ("final_out".toList, "Final: Processed: hello".toList)] ↔
        k ≠ [] ∧ k ∈ [exampleStepOne, exampleStepTwo].map (fun s => s.OutputVar)) ∧
      (∀ k : Str, GoMap.get? [("step_one_out".toList, "Processed: hello".toList),
          ("final_out".toList, "Final: Processed: hello".toList)] k =
        if k = [] then none
        else chain.lastDeclared k [exampleStepOne, exampleStepTwo] outs) :=
  Execute_final_and_intermediates exampleExternals
    ⟨"test-chain".toList, [exampleStepOne, exampleStepTwo]⟩ exampleRegistry
    [("user_input".toList, Value.str "hello".toList)]
    ⟨"Final: Processed: hello".toList,
      [("step_one_out".toList, "Processed: hello".toList),
       ("final_out".toList, "Final: Processed: hello".toList)]⟩
    (by decide) (by decide)

/-! ## More on `validator.Validate` -/

/-- `Validate` in closed form: the required names that are not keys. -/
theorem Validate_eq_filter {β : Type} (req : List Str) (m : GoMap β) :
    validator.Validate req m =
      (if req.filter (fun n => decide (n ∉ m.keys)) = [] then none
       else some ⟨req.filter (fun n => decide (n ∉ m.keys))⟩) := by
  unfold validator.Validate
  simp only [Validate_loop_eq, List.nil_append]
  cases hf : req.filter (fun n => decide (n ∉ m.keys)) with
  | nil => simp
  | cons a l => simp

/-- C16. `validator.Validate` decides presence by key existence: on two
variable maps with the same keys, whatever their values, it returns the same
result; a required variable bound to the empty string, to `false` or to `nil`
counts as present. -/
theorem Validate_by_key_existence {β γ : Type} (required : List Str) (m₁ : GoMap β)
    (m₂ : GoMap γ) (h : ∀ k : Str, k ∈ m₁.keys ↔ k ∈ m₂.keys) :
    validator.Validate required m₁ = validator.Validate required m₂ ∧
    validator.Validate ["x".toList] [("x".toList, Value.str [])] = none ∧
    validator.Validate ["x".toList] [("x".toList, Value.bool false)] = none ∧
    validator.Validate ["x".toList] [("x".toList, Value.null)] = none := by
  refine ⟨?_, by decide, by decide, by decide⟩
  have hf : required.filter (fun n => decide (n ∉ m₁.keys))
      = required.filter (fun n => decide (n ∉ m₂.keys)) := by
    apply List.filter_congr
    intro k _
    simp only [h k]
  rw [Validate_eq_filter, Validate_eq_filter, hf]

/-- C16 at the required names `name`, `age` and the maps
`{name: "Alice", age: 30}` and `{name: "", age: nil}`. -/
theorem Validate_by_key_existence_witness :
    (validator.Validate ["name".toList, "age".toList]
        [("name".toList, Value.str "Alice".toList), ("age".toList, Value.int 30)]
      = validator.Validate ["name".toList, "age".toList]
        [("name".toList, Value.str []), ("age".toList, Value.null)]) ∧
    validator.Validate ["x".toList] [("x".toList, Value.str [])] = none ∧
    validator.Validate ["x".toList] [("x".toList, Value.bool false)] = none ∧
    validator.Validate ["x".toList] [("x".toList, Value.null)] = none :=
  Validate_by_key_existence ["name".toList, "age".toList]
    [("name".toList, Value.str "Alice".toList), ("age".toList, Value.int 30)]
    [("name".toList, Value.str []), ("age".toList, Value.null)]
    (by intro k; simp [GoMap.keys])

/-! ## `truncate`, `wordCount`, `tokenEstimate` -/

/-- C17. For `maxChars > 3`, `truncate` returns the text unchanged when
`len(text) <= maxChars`, and otherwise the first `maxChars-3` bytes of the
text followed by `...`: a result of length exactly `maxChars` that ends with
`...`. -/
theorem truncate_with_ellipsis (maxChars : Int) (text : Bytes) (h : 3 < maxChars) :
    ((text.length : Int) ≤ maxChars → engine.truncate maxChars text = some text) ∧
    (maxChars < (text.length : Int) →
      engine.truncate maxChars text
        = some (text.take (maxChars - 3).toNat ++ asciiBytes "...") ∧
      ((text.take (maxChars - 3).toNat ++ asciiBytes "...").length : Int) = maxChars ∧
      asciiBytes "..." <:+ text.take (maxChars - 3).toNat ++ asciiBytes "...") := by
  constructor
  · intro hle
    simp [engine.truncate, hle]
  · intro hlt
    have h1 : ¬ (text.length : Int) ≤ maxChars := by omega
    have h2 : ¬ maxChars ≤ 3 := by omega
    have h3 : 0 ≤ maxChars - 3 ∧ maxChars - 3 ≤ (text.length : Int) := by omega
    refine ⟨?_, ?_, List.suffix_append _ _⟩
    · simp only [engine.truncate, h1, h2, if_false, sliceTo, h3, and_self, if_true,
        Option.map_some']
    · have hlen : (asciiBytes "...").length = 3 := by decide
      rw [List.length_append, List.length_take, hlen]
      omega

/-- C17 at `truncate(8, "hello world")`, which is `hello...`. -/
theorem truncate_with_ellipsis_witness :
    (((asciiBytes "hello world").length : Int) ≤ 8 →
      engine.truncate 8 (asciiBytes "hello world") = some (asciiBytes "hello world")) ∧
    ((8 : Int) < ((asciiBytes "hello world").length : Int) →
      engine.truncate 8 (asciiBytes "hello world")
        = some ((asciiBytes "hello world").take ((8 : Int) - 3).toNat ++ asciiBytes "...") ∧
      ((((asciiBytes "hello world").take ((8 : Int) - 3).toNat
        ++ asciiBytes "...").length : Nat) : Int) = 8 ∧
      asciiBytes "..." <:+
        (asciiBytes "hello world").take ((8 : Int) - 3).toNat ++ asciiBytes "...") :=
  truncate_with_ellipsis 8 (asciiBytes "hello world") (by decide)

/-- C18, as stated, fails. For the limit `-1` and the text `a`, `len(text)`
exceeds the limit and `truncate` returns nothing: the slice expression
`text[:-1]` panics. -/
theorem truncate_negative_limit_panics :
    (-1 : Int) ≤ 3 ∧ (-1 : Int) < ((asciiBytes "a").length : Int) ∧
    engine.truncate (-1) (asciiBytes "a") = none := by
  decide

/-- C18, amended. For `0 <= maxChars <= 3`, `truncate` returns the text
unchanged when `len(text) <= maxChars`, and otherwise the first `maxChars`
bytes of the text: a result of length exactly `maxChars`, a prefix of the text
with no ellipsis appended. -/
theorem truncate_hard_cut (maxChars : Int) (text : Bytes) (h0 : 0 ≤ maxChars)
    (h : maxChars ≤ 3) :
    ((text.length : Int) ≤ maxChars → engine.truncate maxChars text = some text) ∧
    (maxChars < (text.length : Int) →
      engine.truncate maxChars text = some (text.take maxChars.toNat) ∧
      ((text.take maxChars.toNat).length : Int) = maxChars ∧
      text.take maxChars.toNat <+: text) := by
  constructor
  · intro hle
    simp [engine.truncate, hle]
  · intro hlt
    have h1 : ¬ (text.length : Int) ≤ maxChars := by omega
    have h3 : 0 ≤ maxChars ∧ maxChars ≤ (text.length : Int) := by omega
    refine ⟨?_, ?_, List.take_prefix _ _⟩
    · simp only [engine.truncate, h1, h, if_false, if_true, sliceTo, h3, and_self]
    · rw [List.length_take]
      omega

/-- The amended C18 at `truncate(2, "hello")`, which is `he`. -/
theorem truncate_hard_cut_witness :
    (((asciiBytes "hello").length : Int) ≤ 2 →
      engine.truncate 2 (asciiBytes "hello") = some (asciiBytes "hello")) ∧
    ((2 : Int) < ((asciiBytes "hello").length : Int) →
      engine.truncate 2 (asciiBytes "hello") = some ((asciiBytes "hello").take (2 : Int).toNat) ∧
      (((asciiBytes "hello").take (2 : Int).toNat).length : Int) = 2 ∧
      (asciiBytes "hello").take (2 : Int).toNat <+: asciiBytes "hello") :=
  truncate_hard_cut 2 (asciiBytes "hello") (by decide) (by decide)

/-- C19. `tokenEstimate("")` is 0 and, for every text (the empty one
included), `tokenEstimate(text)` is `(len(text)+3)/4` in integer division,
which is the ceiling of `len(text)/4`; 4 bytes give 1, 5 give 2 and 16 give
4. -/
theorem tokenEstimate_is_ceiling (text : Bytes) :
    engine.tokenEstimate [] = 0 ∧
    engine.tokenEstimate text = (text.length + 3) / 4 ∧
    ((engine.tokenEstimate text : ℤ) = ⌈(text.length : ℚ) / 4⌉) ∧
    engine.tokenEstimate (asciiBytes "test") = 1 ∧
    engine.tokenEstimate (asciiBytes "hello") = 2 ∧
    engine.tokenEstimate (asciiBytes "1234567890123456") = 4 := by
  have hq : engine.tokenEstimate text = (text.length + 3) / 4 := by
    unfold engine.tokenEstimate
    by_cases h0 : text.length = 0
    · simp [h0]
    · simp [h0]
  refine ⟨rfl, hq, ?_, by decide, by decide, by decide⟩
  · rw [hq]
    symm
    rw [Int.ceil_eq_iff]
    have h1 : 4 * ((text.length + 3) / 4) ≤ text.length + 3 := Nat.mul_div_le _ _
    have h1' : (4 : ℚ) * (((text.length + 3) / 4 : ℕ) : ℚ) ≤ (text.length : ℚ) + 3 := by
      exact_mod_cast h1
    have h3 : text.length ≤ 4 * ((text.length + 3) / 4) := by omega
    have h3' : (text.length : ℚ) ≤ 4 * (((text.length + 3) / 4 : ℕ) : ℚ) := by
      exact_mod_cast h3
    simp only [Int.cast_natCast]
    constructor <;> linarith

/-! ## Lemmas on `strings.Fields` -/

theorem Fields_go_space (w : Char) (s cur : Str) (hw : isSpace w = true) :
    Fields.go (w :: s) cur = (if cur = [] then [] else [cur.reverse]) ++ Fields.go s [] := by
  by_cases hc : cur = [] <;> simp [Fields.go, hw, hc]

theorem Fields_go_nonspace (c : Char) (s cur : Str) (hc : isSpace c = false) :
    Fields.go (c :: s) cur = Fields.go s (c :: cur) := by
  simp [Fields.go, hc]

theorem Fields_go_spaces (ws s : Str) (hws : ∀ c ∈ ws, isSpace c = true) :
    Fields.go (ws ++ s) [] = Fields.go s [] := by
  induction ws with
  | nil => rfl
  | cons w ws ih =>
    rw [List.cons_append, Fields_go_space w _ [] (hws w (List.mem_cons_self w ws))]
    simpa using ih (fun c hc => hws c (List.mem_cons_of_mem w hc))

theorem Fields_go_append_spaces (ws : Str) (hws : ∀ c ∈ ws, isSpace c = true) (s : Str) :
    ∀ cur : Str, Fields.go (s ++ ws) cur = Fields.go s cur := by
  induction s with
  | nil =>
    intro cur
    cases ws with
    | nil => rfl
    | cons w ws =>
      have h0 := Fields_go_spaces ws [] (fun c hc => hws c (List.mem_cons_of_mem w hc))
      rw [List.append_nil] at h0
      rw [List.nil_append, Fields_go_space w ws cur (hws w (List.mem_cons_self w ws)), h0]
      by_cases hc : cur = [] <;> simp [Fields.go, hc]
  | cons c s ih =>
    intro cur
    rw [List.cons_append]
    cases hc : isSpace c with
    | true => rw [Fields_go_space c _ cur hc, Fields_go_space c _ cur hc, ih]
    | false => rw [Fields_go_nonspace c _ cur hc, Fields_go_nonspace c _ cur hc, ih]

theorem Fields_go_collapse (w : Char) (ws b : Str) (hw : isSpace w = true)
    (hws : ∀ c ∈ ws, isSpace c = true) (a : Str) :
    ∀ cur : Str, Fields.go (a ++ w :: (ws ++ b)) cur = Fields.go (a ++ w :: b) cur := by
  induction a with
  | nil =>
    intro cur
    rw [List.nil_append, List.nil_append, Fields_go_space w _ cur hw, Fields_go_space w _ cur hw,
      Fields_go_spaces ws b hws]
  | cons c a ih =>
    intro cur
    rw [List.cons_append, List.cons_append]
    cases hc : isSpace c with
    | true => rw [Fields_go_space c _ cur hc, Fields_go_space c _ cur hc, ih]
    | false => rw [Fields_go_nonspace c _ cur hc, Fields_go_nonspace c _ cur hc, ih]

theorem nonSpaceRunsFrom_cons (prev : Bool) (c : Char) (s : Str) :
    nonSpaceRunsFrom prev (c :: s) =
      (if prev && !isSpace c then 1 else 0) + nonSpaceRunsFrom (isSpace c) s := by
  unfold nonSpaceRunsFrom
  rw [List.map_cons, List.zip_cons_cons, List.countP_cons]
  simp only [Nat.add_comm]

theorem Fields_go_length (s : Str) :
    ∀ cur : Str, (Fields.go s cur).length =
      (if cur = [] then 0 else 1) + nonSpaceRunsFrom (decide (cur = [])) s := by
  induction s with
  | nil =>
    intro cur
    by_cases hc : cur = [] <;> simp [Fields.go, hc, nonSpaceRunsFrom]
  | cons c s ih =>
    intro cur
    rw [nonSpaceRunsFrom_cons]
    cases hc : isSpace c with
    | true =>
      rw [Fields_go_space c s cur hc, List.length_append, ih]
      by_cases hcur : cur = [] <;> simp [hcur]
    | false =>
      rw [Fields_go_nonspace c s cur hc, ih]
      by_cases hcur : cur = [] <;> simp [hcur]

/-- C20. `wordCount(text)` is the number of maximal runs of characters of the
text that are not white space; it is 0 for the empty text and for a text of
white space only; white space before or after the text, and more white space
where there is some, do not change it; the text `hello` and `world` with two
spaces before, three between and two after gives 2. -/
theorem wordCount_counts_runs (text a b ws : Str) (w : Char)
    (hws : ∀ c ∈ ws, isSpace c = true) (hw : isSpace w = true) :
    engine.wordCount text = nonSpaceRuns text ∧
    engine.wordCount [] = 0 ∧
    engine.wordCount ws = 0 ∧
    engine.wordCount (ws ++ text) = engine.wordCount text ∧
    engine.wordCount (text ++ ws) = engine.wordCount text ∧
    engine.wordCount (a ++ w :: (ws ++ b)) = engine.wordCount (a ++ w :: b) ∧
    engine.wordCount "  hello   world  ".toList = 2 := by
  unfold engine.wordCount Fields
  refine ⟨?_, rfl, ?_, ?_, ?_, ?_, by decide⟩
  · rw [Fields_go_length]
    simp [nonSpaceRuns]
  · have := Fields_go_spaces ws [] hws
    rw [List.append_nil] at this
    rw [this]
    rfl
  · rw [Fields_go_spaces ws text hws]
  · rw [Fields_go_append_spaces ws hws text []]
  · rw [Fields_go_collapse w ws b hw hws a []]

/-- C20 at the text `hello   world`, the white space of two spaces and the
words `hello` and `world`. -/
theorem wordCount_counts_runs_witness :
    engine.wordCount "hello   world".toList = nonSpaceRuns "hello   world".toList ∧
    engine.wordCount [] = 0 ∧
    engine.wordCount "  ".toList = 0 ∧
    engine.wordCount ("  ".toList ++ "hello   world".toList)
      = engine.wordCount "hello   world".toList ∧
    engine.wordCount ("hello   world".toList ++ "  ".toList)
      = engine.wordCount "hello   world".toList ∧
    engine.wordCount ("hello".toList ++ ' ' :: ("  ".toList ++ "world".toList))
      = engine.wordCount ("hello".toList ++ ' ' :: "world".toList) ∧
    engine.wordCount "  hello   world  ".toList = 2 :=
  wordCount_counts_runs "hello   world".toList "hello".toList "world".toList "  ".toList ' '
    (by decide) (by decide)

/-! ## More on the loop of `chain.Execute` -/

theorem GoMap.mem_keys_set {β : Type} (m : GoMap β) (k : Str) (v : β) (k' : Str) :
    k' ∈ (m.set k v).keys ↔ k' = k ∨ k' ∈ m.keys := by
  rw [← GoMap.get?_isSome_iff, ← GoMap.get?_isSome_iff, GoMap.get?_set]
  by_cases h : k = k'
  · simp [h]
  · have h' : ¬ k' = k := fun e => h e.symm
    simp [h, h']

theorem stepVars_fold_keys (E : Externals) (vars : GoMap Value) (k : Str) (l : GoMap Str) :
    ∀ acc : GoMap Value,
      k ∈ (l.foldl (fun sv kv => sv.set kv.1 (Value.str (chain.resolveVar E kv.2 vars)))
        acc).keys ↔ k ∈ acc.keys ∨ k ∈ l.keys := by
  induction l with
  | nil =>
    intro acc
    simp only [List.foldl_nil, GoMap.keys, List.map_nil, List.not_mem_nil, or_false]
  | cons p l ih =>
    intro acc
    rw [List.foldl_cons, ih, GoMap.mem_keys_set]
    have hk : k ∈ GoMap.keys (p :: l) ↔ k = p.1 ∨ k ∈ GoMap.keys l := by
      simp only [GoMap.keys, List.map_cons, List.mem_cons]
    rw [hk]
    tauto

/-- The keys of the step variables are the keys of the `vars` of the step. -/
theorem stepVars_keys (E : Externals) (step : chain.Step) (vars : GoMap Value) (k : Str) :
    k ∈ (chain.stepVars E step vars).keys ↔ k ∈ step.Vars.keys := by
  unfold chain.stepVars
  rw [stepVars_fold_keys]
  simp only [GoMap.keys, List.map_nil, List.not_mem_nil, false_or]

/-- A step whose validation fails aborts the loop. -/
theorem loop_missing_vars (E : Externals) (reg : registry.Registry) (i : Nat)
    (step : chain.Step) (steps : List chain.Step) (vars : GoMap Value) (inter : GoMap Str)
    (last : Str) (tmpl : registry.Template) (e : validator.MissingVarsError)
    (hget : reg.templates.get? step.Template = some tmpl)
    (hval : (if tmpl.Meta.RequiredVars.length > 0
      then validator.Validate tmpl.Meta.RequiredVars (chain.stepVars E step vars) else none)
      = some e) :
    chain.Execute.loop E reg i (step :: steps) vars inter last =
      ({}, some (.wrap ("step ".toList ++ fmtInt (i + 1) ++ " (".toList ++ step.Template
        ++ "): ".toList) (.missingVars e))) := by
  simp only [chain.Execute.loop, registry.Registry.Get, hget, hval]

/-- A step whose rendering fails aborts the loop. -/
theorem loop_render_error (E : Externals) (reg : registry.Registry) (i : Nat)
    (step : chain.Step) (steps : List chain.Step) (vars : GoMap Value) (inter : GoMap Str)
    (last : Str) (tmpl : registry.Template) (r : engine.RenderResult) (e : GoError)
    (hget : reg.templates.get? step.Template = some tmpl)
    (hval : (if tmpl.Meta.RequiredVars.length > 0
      then validator.Validate tmpl.Meta.RequiredVars (chain.stepVars E step vars) else none)
      = none)
    (hr : engine.Render E tmpl.Content (chain.stepVars E step vars) reg.Includes = (r, some e)) :
    chain.Execute.loop E reg i (step :: steps) vars inter last =
      ({}, some (.wrap ("step ".toList ++ fmtInt (i + 1) ++ " (".toList ++ step.Template
        ++ "): rendering: ".toList) e)) := by
  simp only [chain.Execute.loop, registry.Registry.Get, hget, hval, hr]

/-- What the loop does on its first step: it aborts on a failed lookup,
validation or rendering, and goes on otherwise. -/
theorem loop_cons_cases (E : Externals) (reg : registry.Registry) (i : Nat) (step : chain.Step)
    (steps : List chain.Step) (vars : GoMap Value) (inter : GoMap Str) (last : Str) :
    (∃ err : GoError, chain.StepAbort E reg err ∧
      chain.Execute.loop E reg i (step :: steps) vars inter last = ({}, some err)) ∨
    (∃ (vars' : GoMap Value) (inter' : GoMap Str) (last' : Str),
      chain.Execute.loop E reg i (step :: steps) vars inter last =
        chain.Execute.loop E reg (i + 1) steps vars' inter' last') := by
  cases hget : reg.templates.get? step.Template with
  | none =>
    exact Or.inl ⟨_, ⟨i + 1, step, vars, Or.inl ⟨hget, rfl⟩⟩,
      loop_not_found E reg i step steps vars inter last hget⟩
  | some tmpl =>
    cases hval : (if tmpl.Meta.RequiredVars.length > 0
        then validator.Validate tmpl.Meta.RequiredVars (chain.stepVars E step vars)
        else none) with
    | some e =>
      have hv : validator.Validate tmpl.Meta.RequiredVars (chain.stepVars E step vars)
          = some e := by
        by_cases hl : tmpl.Meta.RequiredVars.length > 0
        · simpa [hl] using hval
        · simp [hl] at hval
      exact Or.inl ⟨_, ⟨i + 1, step, vars, Or.inr (Or.inl ⟨tmpl, e, hget, hv, rfl⟩)⟩,
        loop_missing_vars E reg i step steps vars inter last tmpl e hget hval⟩
    | none =>
      rcases hr : engine.Render E tmpl.Content (chain.stepVars E step vars) reg.Includes
        with ⟨r, e⟩
      cases e with
      | some e =>
        exact Or.inl ⟨_, ⟨i + 1, step, vars,
            Or.inr (Or.inr ⟨tmpl, e, hget, by rw [hr], rfl⟩)⟩,
          loop_render_error E reg i step steps vars inter last tmpl r e hget hval hr⟩
      | none =>
        exact Or.inr ⟨_, _, _, loop_step E reg i step steps vars inter last tmpl r hget hval hr⟩

/-- An error of the loop is the abort of a step, and comes with an empty
result. -/
theorem loop_error (E : Externals) (reg : registry.Registry) (steps : List chain.Step) :
    ∀ (i : Nat) (vars : GoMap Value) (inter : GoMap Str) (last : Str) (res : chain.Result)
      (err : GoError),
      chain.Execute.loop E reg i steps vars inter last = (res, some err) →
      res = {} ∧ chain.StepAbort E reg err := by
  induction steps with
  | nil =>
    intro i vars inter last res err h
    rw [loop_nil] at h
    simp at h
  | cons step steps ih =>
    intro i vars inter last res err h
    rcases loop_cons_cases E reg i step steps vars inter last with
      ⟨err', habort, heq⟩ | ⟨vars', inter', last', heq⟩
    · rw [heq] at h
      simp only [Prod.mk.injEq, Option.some.injEq] at h
      exact ⟨h.1.symm, h.2 ▸ habort⟩
    · rw [heq] at h
      exact ih _ _ _ _ _ _ h

/-! ## `chain.Execute`: validation, fallback and errors -/

/-- C11. The required variables of a step are validated against the resolved
variables of the step, whose keys are the keys of its `vars` mapping: when the
steps before step `k` run without error, the template of step `k` is in the
registry and declares a required name that is not a key of the `vars` of the
step, `chain.Execute` returns the error `step k (template): ` wrapping the
`MissingVarsError` of all the required names that are not keys of `vars`,
whatever the initial variables and the outputs captured before. -/
theorem Execute_validates_step_vars (E : Externals) (chainName : Str)
    (pre post : List chain.Step) (step : chain.Step) (reg : registry.Registry)
    (initialVars : GoMap Value) (tmpl : registry.Template) (name : Str)
    (hpre : (chain.Execute E ⟨chainName, pre⟩ reg initialVars).2 = none)
    (hget : reg.templates.get? step.Template = some tmpl)
    (hreq : name ∈ tmpl.Meta.RequiredVars) (hmiss : name ∉ step.Vars.keys) :
    chain.Execute E ⟨chainName, pre ++ step :: post⟩ reg initialVars =
        ({}, some (.wrap ("step ".toList ++ fmtInt (pre.length + 1) ++ " (".toList
          ++ step.Template ++ "): ".toList)
          (.missingVars ⟨tmpl.Meta.RequiredVars.filter
            (fun n => decide (n ∉ step.Vars.keys))⟩))) ∧
    name ∈ tmpl.Meta.RequiredVars.filter (fun n => decide (n ∉ step.Vars.keys)) := by
  have hmem : name ∈ tmpl.Meta.RequiredVars.filter (fun n => decide (n ∉ step.Vars.keys)) :=
    List.mem_filter.2 ⟨hreq, by simpa using hmiss⟩
  refine ⟨?_, hmem⟩
  unfold chain.Execute at hpre ⊢
  rcases hl : chain.Execute.loop E reg 0 pre
    (List.foldl (fun m kv => GoMap.set m kv.1 kv.2) [] initialVars) [] [] with ⟨res, e⟩
  simp only [hl] at hpre
  subst hpre
  obtain ⟨vars', inter', last', hrest⟩ := loop_append E reg pre 0 _ _ _ res hl
  have hfilter : tmpl.Meta.RequiredVars.filter
      (fun n => decide (n ∉ (chain.stepVars E step vars').keys))
      = tmpl.Meta.RequiredVars.filter (fun n => decide (n ∉ step.Vars.keys)) := by
    apply List.filter_congr
    intro k _
    simp only [stepVars_keys]
  have hne : tmpl.Meta.RequiredVars.filter (fun n => decide (n ∉ step.Vars.keys)) ≠ [] :=
    List.ne_nil_of_mem hmem
  have hlen : tmpl.Meta.RequiredVars.length > 0 := List.length_pos_of_mem hreq
  have hval : (if tmpl.Meta.RequiredVars.length > 0
      then validator.Validate tmpl.Meta.RequiredVars (chain.stepVars E step vars') else none)
      = some ⟨tmpl.Meta.RequiredVars.filter (fun n => decide (n ∉ step.Vars.keys))⟩ := by
    rw [if_pos hlen, Validate_eq_filter, hfilter, if_neg hne]
  simp only []
  rw [hrest (step :: post), loop_missing_vars E reg _ step post vars' inter' last' tmpl _ hget
    hval]
  simp

/-- C11 at a chain whose second step runs `step_two`, which requires `data`,
with no `vars`: `data` is a key of the initial variables and the output
variable of the first step, and the chain aborts at step 2 for the missing
`data`. -/
theorem Execute_validates_step_vars_witness :
    chain.Execute exampleExternals ⟨"test-chain".toList,
        [⟨"step_one".toList, [("input".toList, "\x7b\x7b .user_input \x7d\x7d".toList)],
            "data".toList⟩]
          ++ ⟨"step_two".toList, [], "final_out".toList⟩ :: []⟩
        exampleRegistry
        [("user_input".toList, Value.str "hello".toList),
         ("data".toList, Value.str "ambient".toList)] =
        ({}, some (.wrap "step 2 (step_two): ".toList (.missingVars ⟨["data".toList]⟩))) ∧
    "data".toList ∈ ["data".toList] :=
  Execute_validates_step_vars exampleExternals "test-chain".toList
    [⟨"step_one".toList, [("input".toList, "\x7b\x7b .user_input \x7d\x7d".toList)],
      "data".toList⟩]
    [] ⟨"step_two".toList, [], "final_out".toList⟩ exampleRegistry
    [("user_input".toList, Value.str "hello".toList),
     ("data".toList, Value.str "ambient".toList)]
    ⟨"step_two".toList,
      { Name := "step_two".toList, Description := "Second step".toList,
        RequiredVars := ["data".toList] },
      "Final: \x7b\x7b .data \x7d\x7d".toList,
      ("---\nname: step_two\ndescription: Second step\nrequired_vars:\n  - data\n"
        ++ "---\nFinal: \x7b\x7b .data \x7d\x7d").toList⟩
    "data".toList (by decide) (by decide) (by decide) (by decide)

/-- C12. `resolveVar` returns the output of rendering the expression as a
template on the ambient variables, with no include, when that render succeeds,
and the expression itself when it fails. An error of `chain.Execute` is always
the abort of a step on a failed lookup, validation or rendering of the
template of the step, never the failure of an expression: with the unclosed
expression `{{ .user_input` for `input`, the chain of `step_one` runs and
passes the expression on as text. -/
theorem resolveVar_falls_back (E : Externals) (val : Str) (vars : GoMap Value)
    (d : chain.Definition) (reg : registry.Registry) (initialVars : GoMap Value) :
    ((engine.Render E val vars []).2 = none →
      chain.resolveVar E val vars = (engine.Render E val vars []).1.Output) ∧
    ((engine.Render E val vars []).2 ≠ none → chain.resolveVar E val vars = val) ∧
    (∀ err : GoError, (chain.Execute E d reg initialVars).2 = some err →
      chain.StepAbort E reg err) ∧
    ((engine.Render exampleExternals "\x7b\x7b .user_input".toList
        [("user_input".toList, Value.str "hello".toList)] []).2 ≠ none ∧
      chain.Execute exampleExternals ⟨"test-chain".toList,
          [⟨"step_one".toList, [("input".toList, "\x7b\x7b .user_input".toList)],
            "step_one_out".toList⟩]⟩
          exampleRegistry [("user_input".toList, Value.str "hello".toList)] =
        (⟨"Processed: \x7b\x7b .user_input".toList,
          [("step_one_out".toList, "Processed: \x7b\x7b .user_input".toList)]⟩, none)) := by
  refine ⟨?_, ?_, ?_, by decide⟩
  · intro h
    unfold chain.resolveVar
    rcases hr : engine.Render E val vars [] with ⟨r, e⟩
    rw [hr] at h
    simp only at h
    subst h
    rfl
  · intro h
    unfold chain.resolveVar
    rcases hr : engine.Render E val vars [] with ⟨r, e⟩
    rw [hr] at h
    cases e with
    | none => exact absurd rfl h
    | some e => rfl
  · intro err h
    unfold chain.Execute at h
    rcases hl : chain.Execute.loop E reg 0 d.Steps
      (List.foldl (fun m kv => GoMap.set m kv.1 kv.2) [] initialVars) [] [] with ⟨res, e⟩
    rw [hl] at h
    simp only at h
    subst h
    exact (loop_error E reg d.Steps 0 _ _ _ res err hl).2

/-- C14. Whenever `chain.Execute` returns an error, the result returned with it
is empty: `Final` is the empty string and `Intermediates` holds no entry. -/
theorem Execute_error_result_empty (E : Externals) (d : chain.Definition)
    (reg : registry.Registry) (initialVars : GoMap Value) (err : GoError)
    (h : (chain.Execute E d reg initialVars).2 = some err) :
    (chain.Execute E d reg initialVars).1 = {} ∧
    (chain.Execute E d reg initialVars).1.Final = [] ∧
    (chain.Execute E d reg initialVars).1.Intermediates = [] := by
  rcases hl : chain.Execute.loop E reg 0 d.Steps
    (List.foldl (fun m kv => GoMap.set m kv.1 kv.2) [] initialVars) [] [] with ⟨res, e⟩
  have hx : chain.Execute E d reg initialVars = (res, e) := hl
  rw [hx] at h ⊢
  simp only at h
  subst h
  have := (loop_error E reg d.Steps 0 _ _ _ res err hl).1
  subst this
  exact ⟨rfl, rfl, rfl⟩

/-- C14 at the chain of `step_one`, which captures `step_one_out`, and a step
on the template `nonexistent`: the error of step 2 comes with an empty
result. -/
theorem Execute_error_result_empty_witness :
    (chain.Execute exampleExternals ⟨"bad-chain".toList,
        [exampleStepOne, ⟨"nonexistent".toList, [("x".toList, "y".toList)], "out".toList⟩]⟩
        exampleRegistry [("user_input".toList, Value.str "hello".toList)]).1 = {} ∧
    (chain.Execute exampleExternals ⟨"bad-chain".toList,
        [exampleStepOne, ⟨"nonexistent".toList, [("x".toList, "y".toList)], "out".toList⟩]⟩
        exampleRegistry [("user_input".toList, Value.str "hello".toList)]).1.Final = [] ∧
    (chain.Execute exampleExternals ⟨"bad-chain".toList,
        [exampleStepOne, ⟨"nonexistent".toList, [("x".toList, "y".toList)], "out".toList⟩]⟩
        exampleRegistry [("user_input".toList, Value.str "hello".toList)]).1.Intermediates
      = [] :=
  Execute_error_result_empty exampleExternals ⟨"bad-chain".toList,
      [exampleStepOne, ⟨"nonexistent".toList, [("x".toList, "y".toList)], "out".toList⟩]⟩
    exampleRegistry [("user_input".toList, Value.str "hello".toList)]
    (.wrap "step 2: ".toList (.errorf "template \"nonexistent\" not found".toList))
    (by decide)

/-- C15. `chain.Parse` rejects a chain definition whose decoded step list is
empty, with the error `chain <name> has no steps` and an empty definition, and a
definition it returns without error has at least one step; `steps: []` and a
text without a `steps` key are rejected. -/
theorem chain_Parse_rejects_empty_steps (E : Externals)
    (decode : Str → Except Str chain.Definition) (data : Str) :
    (∀ d : chain.Definition, decode data = .ok d → d.Steps = [] →
      chain.Parse E decode data =
        ({}, some (.errorf ("chain ".toList ++ E.quote d.Name ++ " has no steps".toList)))) ∧
    ((chain.Parse E decode data).2 = none → (chain.Parse E decode data).1.Steps ≠ []) ∧
    (chain.Parse exampleExternals exampleDecodeChain "name: empty\nsteps: []\n".toList).2
      = some (.errorf "chain \"empty\" has no steps".toList) ∧
    (chain.Parse exampleExternals exampleDecodeChain "name: no-steps\n".toList).2
      = some (.errorf "chain \"no-steps\" has no steps".toList) := by
  refine ⟨?_, ?_, by decide, by decide⟩
  · intro d hd hs
    unfold chain.Parse
    rw [hd]
    simp [hs]
  · intro h
    unfold chain.Parse at h ⊢
    cases hd : decode data with
    | error msg =>
      rw [hd] at h
      simp at h
    | ok d =>
      rw [hd] at h
      by_cases hs : d.Steps.length = 0
      · simp [hs] at h
      · simp only [hs, if_false]
        exact fun e => hs (by rw [e]; rfl)

/-! ## Lemmas on the heap -/

theorem Heap.length_make (h : Heap) : h.make.1.length = h.length + 1 := by
  simp [Heap.make]

theorem Heap.read_make_old (h : Heap) (r : Nat) (hr : r < h.length) :
    h.make.1.read r = h.read r := by
  simp [Heap.make, Heap.read, List.getD, List.getElem?_append_left hr]

theorem Heap.read_make_new (h : Heap) : h.make.1.read h.make.2 = [] := by
  simp [Heap.make, Heap.read, List.getD]

theorem Heap.length_write (h : Heap) (r : Nat) (k : Str) (v : Value) :
    (h.write r k v).length = h.length := by
  simp [Heap.write]

theorem Heap.read_write_same (h : Heap) (r : Nat) (k : Str) (v : Value) (hr : r < h.length) :
    (h.write r k v).read r = (h.read r).set k v := by
  simp [Heap.write, Heap.read, List.getD, hr]

theorem Heap.read_write_other (h : Heap) (r r' : Nat) (k : Str) (v : Value) (hne : r' ≠ r) :
    (h.write r k v).read r' = h.read r' := by
  have hne' : r ≠ r' := fun e => hne e.symm
  simp [Heap.write, Heap.read, List.getD, List.getElem?_set_ne hne']

/-- A loop of writes to the map at `t`, each value computed from the map at
`src`, another map: the map at `t` receives the writes, the length of the heap
and the other maps stay. -/
theorem Heap.fold_write {α : Type} (g : GoMap Value → Str × α → Value) (t src : Nat)
    (hne : src ≠ t) (l : List (Str × α)) :
    ∀ h : Heap, t < h.length →
      (l.foldl (fun hh kv => hh.write t kv.1 (g (hh.read src) kv)) h).length = h.length ∧
      (l.foldl (fun hh kv => hh.write t kv.1 (g (hh.read src) kv)) h).read t
        = l.foldl (fun m kv => m.set kv.1 (g (h.read src) kv)) (h.read t) ∧
      ∀ r : Nat, r ≠ t →
        (l.foldl (fun hh kv => hh.write t kv.1 (g (hh.read src) kv)) h).read r = h.read r := by
  induction l with
  | nil =>
    intro h _
    exact ⟨rfl, rfl, fun _ _ => rfl⟩
  | cons p l ih =>
    intro h ht
    have ht' : t < (h.write t p.1 (g (h.read src) p)).length := by
      rw [Heap.length_write]; exact ht
    obtain ⟨h1, h2, h3⟩ := ih (h.write t p.1 (g (h.read src) p)) ht'
    have hsrc : (h.write t p.1 (g (h.read src) p)).read src = h.read src :=
      Heap.read_write_other h t src _ _ hne
    simp only [List.foldl_cons]
    refine ⟨?_, ?_, ?_⟩
    · rw [h1, Heap.length_write]
    · rw [h2, hsrc, Heap.read_write_same h t _ _ ht]
    · intro r hr
      rw [h3 r hr, Heap.read_write_other h t r _ _ hr]

/-- The step variables on the heap are the step variables, and filling them
leaves the other maps as they are. -/
theorem stepVarsOnHeap_spec (E : Externals) (step : chain.Step) (vars : Nat) (h : Heap)
    (hv : vars < h.length) :
    (chain.stepVarsOnHeap E step vars h.make.2 h.make.1).length = h.length + 1 ∧
    (chain.stepVarsOnHeap E step vars h.make.2 h.make.1).read h.make.2
      = chain.stepVars E step (h.read vars) ∧
    ∀ r : Nat, r < h.length →
      (chain.stepVarsOnHeap E step vars h.make.2 h.make.1).read r = h.read r := by
  have hne : vars ≠ h.make.2 := Nat.ne_of_lt hv
  have hlt : h.make.2 < h.make.1.length := by
    rw [Heap.length_make]; exact Nat.lt_succ_self _
  obtain ⟨h1, h2, h3⟩ := Heap.fold_write
    (fun (m : GoMap Value) (kv : Str × Str) => Value.str (chain.resolveVar E kv.2 m))
    h.make.2 vars hne step.Vars h.make.1 hlt
  refine ⟨?_, ?_, ?_⟩
  · unfold chain.stepVarsOnHeap
    rw [h1, Heap.length_make]
  · unfold chain.stepVarsOnHeap chain.stepVars
    rw [h2, Heap.read_make_new, Heap.read_make_old h vars hv]
  · intro r hr
    unfold chain.stepVarsOnHeap
    rw [h3 r (Nat.ne_of_lt hr), Heap.read_make_old h r hr]

/-- The loop on the heap returns what the loop on the value of the ambient
variables returns, and leaves every map but the ambient variables as it is. -/
theorem heapLoop_spec (E : Externals) (reg : registry.Registry) (vars : Nat)
    (steps : List chain.Step) :
    ∀ (i : Nat) (h : Heap) (inter : GoMap Str) (last : Str), vars < h.length →
      (chain.Execute.heapLoop E reg vars i steps h inter last).1
        = chain.Execute.loop E reg i steps (h.read vars) inter last ∧
      ∀ r : Nat, r < h.length → r ≠ vars →
        (chain.Execute.heapLoop E reg vars i steps h inter last).2.read r = h.read r := by
  induction steps with
  | nil =>
    intro i h inter last _
    simp only [chain.Execute.heapLoop, chain.Execute.loop]
    exact ⟨trivial, fun _ _ _ => trivial⟩
  | cons step steps ih =>
    intro i h inter last hv
    obtain ⟨hlen, hsv, hold⟩ := stepVarsOnHeap_spec E step vars h hv
    have hvars2 : (chain.stepVarsOnHeap E step vars h.make.2 h.make.1).read vars = h.read vars :=
      hold vars hv
    have hv2 : vars < (chain.stepVarsOnHeap E step vars h.make.2 h.make.1).length := by
      rw [hlen]; exact Nat.lt_succ_of_lt hv
    cases hget : reg.templates.get? step.Template with
    | none =>
      simp only [chain.Execute.heapLoop, chain.Execute.loop, registry.Registry.Get, hget]
      exact ⟨trivial, fun _ _ _ => trivial⟩
    | some tmpl =>
      cases hval : (if tmpl.Meta.RequiredVars.length > 0
          then validator.Validate tmpl.Meta.RequiredVars (chain.stepVars E step (h.read vars))
          else none) with
      | some e =>
        simp only [chain.Execute.heapLoop, chain.Execute.loop, registry.Registry.Get, hget, hsv,
          hval]
        exact ⟨trivial, fun r hr _ => hold r hr⟩
      | none =>
        rcases hr : engine.Render E tmpl.Content (chain.stepVars E step (h.read vars))
          reg.Includes with ⟨res, e⟩
        cases e with
        | some e =>
          simp only [chain.Execute.heapLoop, chain.Execute.loop, registry.Registry.Get, hget,
            hsv, hval, hr]
          exact ⟨trivial, fun r hr _ => hold r hr⟩
        | none =>
          simp only [chain.Execute.heapLoop, chain.Execute.loop, registry.Registry.Get, hget,
            hsv, hval, hr]
          by_cases ho : step.OutputVar = []
          · simp only [ho, ne_eq, not_true_eq_false, if_false]
            obtain ⟨ih1, ih2⟩ := ih (i + 1) _ inter res.Output hv2
            rw [hvars2] at ih1
            refine ⟨ih1, fun r hr hne => ?_⟩
            rw [ih2 r (by rw [hlen]; exact Nat.lt_succ_of_lt hr) hne, hold r hr]
          · simp only [ho, ne_eq, not_false_eq_true, if_true]
            have hv3 : vars < ((chain.stepVarsOnHeap E step vars h.make.2 h.make.1).write vars
                step.OutputVar (Value.str res.Output)).length := by
              rw [Heap.length_write]; exact hv2
            obtain ⟨ih1, ih2⟩ := ih (i + 1) _ (inter.set step.OutputVar res.Output)
              res.Output hv3
            rw [Heap.read_write_same _ _ _ _ hv2, hvars2] at ih1
            refine ⟨ih1, fun r hr hne => ?_⟩
            rw [ih2 r (by rw [Heap.length_write, hlen]; exact Nat.lt_succ_of_lt hr) hne,
              Heap.read_write_other _ _ _ _ _ hne, hold r hr]

/-! ## `chain.Execute` and the map of its caller -/

/-- C13. `chain.Execute` does not write the map of its caller: when it
returns, with a result or an error, every map that existed before the call,
the map `initialVars` among them, holds the bindings it held before, also when
a step captures its output under one of the keys of `initialVars`; and what
`Execute` returns is what it computes from the value of that map. -/
theorem Execute_leaves_initialVars (E : Externals) (d : chain.Definition)
    (reg : registry.Registry) (h : Heap) (initialVars : Nat) (hin : initialVars < h.length) :
    (chain.ExecuteOnHeap E d reg h initialVars).2.read initialVars = h.read initialVars ∧
    (∀ r : Nat, r < h.length → (chain.ExecuteOnHeap E d reg h initialVars).2.read r = h.read r) ∧
    (chain.ExecuteOnHeap E d reg h initialVars).1 = chain.Execute E d reg (h.read initialVars) := by
  have hne : initialVars ≠ h.make.2 := Nat.ne_of_lt hin
  have hlt : h.make.2 < h.make.1.length := by
    rw [Heap.length_make]; exact Nat.lt_succ_self _
  obtain ⟨c1, c2, c3⟩ := Heap.fold_write (fun (_ : GoMap Value) (kv : Str × Value) => kv.2)
    h.make.2 initialVars hne (h.make.1.read initialVars) h.make.1 hlt
  have hv : h.make.2 < (List.foldl (fun hh kv => hh.write h.make.2 kv.1 kv.2) h.make.1
      (h.make.1.read initialVars)).length := by
    rw [c1]; exact hlt
  obtain ⟨l1, l2⟩ := heapLoop_spec E reg h.make.2 d.Steps 0 _ [] [] hv
  have hframe : ∀ r : Nat, r < h.length →
      (chain.ExecuteOnHeap E d reg h initialVars).2.read r = h.read r := by
    intro r hr
    have hr' : r ≠ h.make.2 := Nat.ne_of_lt hr
    unfold chain.ExecuteOnHeap
    simp only []
    rw [l2 r (by rw [c1, Heap.length_make]; exact Nat.lt_succ_of_lt hr) hr', c3 r hr',
      Heap.read_make_old h r hr]
  refine ⟨hframe initialVars hin, hframe, ?_⟩
  unfold chain.ExecuteOnHeap chain.Execute
  simp only []
  rw [l1, c2, Heap.read_make_new, Heap.read_make_old h initialVars hin]

/-- C13 at a chain whose first step captures its output as `user_input`, a key
of the map of the caller: the map still binds `user_input` to `hello`. -/
theorem Execute_leaves_initialVars_witness :
    (chain.ExecuteOnHeap exampleExternals
        ⟨"test-chain".toList,
          [⟨"step_one".toList, [("input".toList, "\x7b\x7b .user_input \x7d\x7d".toList)],
            "user_input".toList⟩]⟩
        exampleRegistry [[("user_input".toList, Value.str "hello".toList)]] 0).2.read 0
      = Heap.read [[("user_input".toList, Value.str "hello".toList)]] 0 ∧
    (∀ r : Nat, r < List.length [[("user_input".toList, Value.str "hello".toList)]] →
      (chain.ExecuteOnHeap exampleExternals
        ⟨"test-chain".toList,
          [⟨"step_one".toList, [("input".toList, "\x7b\x7b .user_input \x7d\x7d".toList)],
            "user_input".toList⟩]⟩
        exampleRegistry [[("user_input".toList, Value.str "hello".toList)]] 0).2.read r
      = Heap.read [[("user_input".toList, Value.str "hello".toList)]] r) ∧
    (chain.ExecuteOnHeap exampleExternals
        ⟨"test-chain".toList,
          [⟨"step_one".toList, [("input".toList, "\x7b\x7b .user_input \x7d\x7d".toList)],
            "user_input".toList⟩]⟩
        exampleRegistry [[("user_input".toList, Value.str "hello".toList)]] 0).1
      = chain.Execute exampleExternals
        ⟨"test-chain".toList,
          [⟨"step_one".toList, [("input".toList, "\x7b\x7b .user_input \x7d\x7d".toList)],
            "user_input".toList⟩]⟩
        exampleRegistry (Heap.read [[("user_input".toList, Value.str "hello".toList)]] 0) :=
  Execute_leaves_initialVars exampleExternals
    ⟨"test-chain".toList,
      [⟨"step_one".toList, [("input".toList, "\x7b\x7b .user_input \x7d\x7d".toList)],
        "user_input".toList⟩]⟩
    exampleRegistry [[("user_input".toList, Value.str "hello".toList)]] 0 (by decide)

/-! ## More on `frontmatter.Parse` -/

/-- `Parse` on a content taken apart: white space, `---`, the metadata text,
the first `\n---`, a text that does not end in white space, white space. -/
theorem Parse_decomposed (E : Externals) (lead raw after trail : Str)
    (hl : ∀ c ∈ lead, isSpace c = true) (ht : ∀ c ∈ trail, isSpace c = true)
    (hafter : ∀ c, after.getLast? = some c → isSpace c = false)
    (hidx : Index (raw ++ "\n---".toList ++ after) "\n---".toList = some raw.length) :
    frontmatter.Parse E (lead ++ "---".toList ++ raw ++ "\n---".toList ++ after ++ trail) =
      match E.yamlUnmarshal raw with
      | .error msg => ({}, some (GoError.yaml msg))
      | .ok m => (⟨m, TrimLeft after "\r\n".toList⟩, none) := by
  have htrim : TrimSpace (lead ++ "---".toList ++ raw ++ "\n---".toList ++ after ++ trail)
      = "---".toList ++ raw ++ "\n---".toList ++ after := by
    rcases List.eq_nil_or_concat after with h0 | ⟨a', z, hz⟩
    · subst h0
      have := TrimSpace_sandwich lead trail ("--".toList ++ raw ++ "\n--".toList) '-' '-' hl ht
        (by decide) (by decide)
      simpa [List.append_assoc] using this
    · subst hz
      have hzs : isSpace z = false := hafter z (by simp)
      have := TrimSpace_sandwich lead trail ("--".toList ++ raw ++ "\n---".toList ++ a') '-' z hl ht
        (by decide) hzs
      simpa [List.append_assoc] using this
  have hp := Parse_both E (lead ++ "---".toList ++ raw ++ "\n---".toList ++ after ++ trail)
    (raw ++ "\n---".toList ++ after) raw.length
    (by rw [htrim]; simp [HasPrefix, frontmatter.delimiter, List.isPrefixOf])
    (by rw [htrim]; simp [frontmatter.delimiter])
    (by simpa [frontmatter.delimiter] using hidx)
  rw [hp]
  have htake : List.take raw.length (raw ++ "\n---".toList ++ after) = raw := by
    simp [List.append_assoc]
  have hdrop : List.drop (raw.length + ("\n".toList ++ frontmatter.delimiter).length)
      (raw ++ "\n---".toList ++ after) = after := by
    have : ("\n".toList ++ frontmatter.delimiter).length = "\n---".toList.length := by decide
    rw [this, ← List.drop_drop, List.append_assoc, List.drop_left, List.drop_left]
  rw [htake, hdrop]

/-- An error of `Parse` comes with empty metadata. -/
theorem Parse_error_meta (E : Externals) (content : Str) (e : GoError)
    (h : (frontmatter.Parse E content).2 = some e) :
    (frontmatter.Parse E content).1.Meta = {} := by
  unfold frontmatter.Parse at h ⊢
  by_cases hp : HasPrefix (TrimSpace content) frontmatter.delimiter = true
  · simp only [hp, Bool.not_true, Bool.false_eq_true, if_false] at h ⊢
    cases hidx : Index (List.drop frontmatter.delimiter.length (TrimSpace content))
        ("\n".toList ++ frontmatter.delimiter) with
    | none => simp only [hidx]
    | some idx =>
      simp only [hidx] at h ⊢
      cases hy : E.yamlUnmarshal (List.take idx
          (List.drop frontmatter.delimiter.length (TrimSpace content))) with
      | error msg => simp only [hy]
      | ok m =>
        rw [hy] at h
        simp at h
  · simp only [Bool.not_eq_true] at hp
    simp only [hp, Bool.not_false, if_true]

/-- The decoder's error comes with an empty result. -/
theorem Parse_yaml_error_result (E : Externals) (content msg : Str)
    (h : (frontmatter.Parse E content).2 = some (GoError.yaml msg)) :
    (frontmatter.Parse E content).1 = {} := by
  unfold frontmatter.Parse at h ⊢
  by_cases hp : HasPrefix (TrimSpace content) frontmatter.delimiter = true
  · simp only [hp, Bool.not_true, Bool.false_eq_true, if_false] at h ⊢
    cases hidx : Index (List.drop frontmatter.delimiter.length (TrimSpace content))
        ("\n".toList ++ frontmatter.delimiter) with
    | none =>
      simp only [hidx] at h
      simp at h
    | some idx =>
      simp only [hidx] at h ⊢
      cases hy : E.yamlUnmarshal (List.take idx
          (List.drop frontmatter.delimiter.length (TrimSpace content))) with
      | error msg' => simp only [hy]
      | ok m =>
        rw [hy] at h
        simp at h
  · simp only [Bool.not_eq_true] at hp
    simp only [hp, Bool.not_false, if_true] at h
    simp at h

/-- C21. A content with the opening line `---` followed at once by the closing
line `---` has empty text between the delimiters. When the decoder accepts the
empty text and leaves the metadata as it is, `frontmatter.Parse` succeeds,
every field of the metadata is empty, and the body is the text after the
closing delimiter (within the trimmed content, leading line breaks
stripped). -/
theorem Parse_empty_metadata (E : Externals) (lead after trail : Str)
    (hl : ∀ c ∈ lead, isSpace c = true) (ht : ∀ c ∈ trail, isSpace c = true)
    (_hclosing : after = [] ∨ "\n".toList <+: after ∨ "\r\n".toList <+: after)
    (hafter : ∀ c, after.getLast? = some c → isSpace c = false)
    (hyaml : E.yamlUnmarshal [] = .ok {}) :
    frontmatter.Parse E (lead ++ "---".toList ++ "\n---".toList ++ after ++ trail) =
      (⟨{}, TrimLeft after "\r\n".toList⟩, none) ∧
    (frontmatter.Parse E (lead ++ "---".toList ++ "\n---".toList ++ after ++ trail)).1.Meta.Name
      = [] ∧
    (frontmatter.Parse E
      (lead ++ "---".toList ++ "\n---".toList ++ after ++ trail)).1.Meta.Description = [] ∧
    (frontmatter.Parse E
      (lead ++ "---".toList ++ "\n---".toList ++ after ++ trail)).1.Meta.RequiredVars = [] ∧
    (frontmatter.Parse E
      (lead ++ "---".toList ++ "\n---".toList ++ after ++ trail)).1.Meta.ModelHint = [] := by
  have hp := Parse_decomposed E lead [] after trail hl ht hafter
    (by simp [Index, List.isPrefixOf])
  rw [hyaml] at hp
  have hp' : frontmatter.Parse E (lead ++ "---".toList ++ "\n---".toList ++ after ++ trail) =
      (⟨{}, TrimLeft after "\r\n".toList⟩, none) := by
    simpa using hp
  rw [hp']
  exact ⟨rfl, rfl, rfl, rfl, rfl⟩

/-- C21 at the content `---`, `---`, `body` (three lines): the metadata is
empty and the body is `body`. -/
theorem Parse_empty_metadata_witness :
    frontmatter.Parse exampleExternals
        ([] ++ "---".toList ++ "\n---".toList ++ "\nbody".toList ++ []) =
      (⟨{}, TrimLeft "\nbody".toList "\r\n".toList⟩, none) ∧
    (frontmatter.Parse exampleExternals
      ([] ++ "---".toList ++ "\n---".toList ++ "\nbody".toList ++ [])).1.Meta.Name = [] ∧
    (frontmatter.Parse exampleExternals
      ([] ++ "---".toList ++ "\n---".toList ++ "\nbody".toList ++ [])).1.Meta.Description
      = [] ∧
    (frontmatter.Parse exampleExternals
      ([] ++ "---".toList ++ "\n---".toList ++ "\nbody".toList ++ [])).1.Meta.RequiredVars
      = [] ∧
    (frontmatter.Parse exampleExternals
      ([] ++ "---".toList ++ "\n---".toList ++ "\nbody".toList ++ [])).1.Meta.ModelHint = [] :=
  Parse_empty_metadata exampleExternals [] "\nbody".toList [] (by decide) (by decide)
    (Or.inr (Or.inl (by decide))) (by decide) rfl

/-! ## `chain.Execute` without steps, `truncate` twice -/

/-- C26. `chain.Execute` on a definition with no step returns no error, the
empty string as `Final` and no intermediate, for every registry and initial
variables; the definition is rejected by `chain.Parse` only. -/
theorem Execute_zero_steps (E : Externals) (chainName : Str) (reg : registry.Registry)
    (initialVars : GoMap Value) (decode : Str → Except Str chain.Definition) (data : Str) :
    chain.Execute E ⟨chainName, []⟩ reg initialVars = (⟨[], []⟩, none) ∧
    (decode data = .ok ⟨chainName, []⟩ →
      chain.Parse E decode data =
        ({}, some (.errorf ("chain ".toList ++ E.quote chainName ++ " has no steps".toList)))) := by
  constructor
  · unfold chain.Execute
    simp only [chain.Execute.loop]
  · intro hd
    unfold chain.Parse
    rw [hd]
    simp

/-- C27. For `maxChars >= 0`, `truncate` returns a text on which `truncate`
with the same limit changes nothing:
`truncate(maxChars, truncate(maxChars, text)) = truncate(maxChars, text)`. -/
theorem truncate_idempotent (maxChars : Int) (text : Bytes) (h : 0 ≤ maxChars) :
    (∃ r : Bytes, engine.truncate maxChars text = some r ∧
      engine.truncate maxChars r = some r) ∧
    (engine.truncate maxChars text).bind (engine.truncate maxChars)
      = engine.truncate maxChars text := by
  have key : ∃ r : Bytes, engine.truncate maxChars text = some r ∧
      engine.truncate maxChars r = some r := by
    by_cases h1 : (text.length : Int) ≤ maxChars
    · exact ⟨text, by simp [engine.truncate, h1], by simp [engine.truncate, h1]⟩
    · by_cases h2 : maxChars ≤ 3
      · have h3 : 0 ≤ maxChars ∧ maxChars ≤ (text.length : Int) := by omega
        refine ⟨text.take maxChars.toNat, ?_, ?_⟩
        · simp only [engine.truncate, h1, h2, if_false, if_true, sliceTo, h3, and_self]
        · have hlen : ((text.take maxChars.toNat).length : Int) ≤ maxChars := by
            rw [List.length_take]
            omega
          unfold engine.truncate
          rw [if_pos hlen]
      · have h3 : 0 ≤ maxChars - 3 ∧ maxChars - 3 ≤ (text.length : Int) := by omega
        refine ⟨text.take (maxChars - 3).toNat ++ asciiBytes "...", ?_, ?_⟩
        · simp only [engine.truncate, h1, h2, if_false, sliceTo, h3, and_self, if_true,
            Option.map_some']
        · have h3' : (asciiBytes "...").length = 3 := by decide
          have hlen : ((text.take (maxChars - 3).toNat ++ asciiBytes "...").length : Int)
              ≤ maxChars := by
            rw [List.length_append, List.length_take, h3']
            omega
          unfold engine.truncate
          rw [if_pos hlen]
  refine ⟨key, ?_⟩
  obtain ⟨r, hr1, hr2⟩ := key
  rw [hr1, Option.some_bind, hr2]

/-- C27 at `truncate(8, "hello world")`: the result `hello...` is returned
unchanged by a second `truncate(8, ...)`. -/
theorem truncate_idempotent_witness :
    (∃ r : Bytes, engine.truncate 8 (asciiBytes "hello world") = some r ∧
      engine.truncate 8 r = some r) ∧
    (engine.truncate 8 (asciiBytes "hello world")).bind (engine.truncate 8)
      = engine.truncate 8 (asciiBytes "hello world") :=
  truncate_idempotent 8 (asciiBytes "hello world") (by decide)

/-! ## Lemmas on the registry -/

/-- The record built from a file bears the name the file resolves to. -/
theorem templateOf_name (E : Externals) (base content : Str) :
    (registry.templateOf E base content).Name = registry.resolvedName E base content := by
  unfold registry.templateOf registry.resolvedName
  rcases hp : frontmatter.Parse E content with ⟨p, e⟩
  cases e with
  | none =>
    by_cases hn : p.Meta.Name = [] <;> simp [hn]
  | some err =>
    have hm := Parse_error_meta E content err (by rw [hp])
    rw [hp] at hm
    simp only at hm
    simp [hm]

/-- A text that ends in a suffix is the text without the suffix, followed by
the suffix. -/
theorem TrimSuffix_append (s suffix : Str) (h : HasSuffix s suffix = true) :
    TrimSuffix s suffix ++ suffix = s := by
  unfold TrimSuffix
  rw [if_pos h]
  unfold HasSuffix at h
  rw [List.isPrefixOf_iff_prefix, List.reverse_prefix] at h
  obtain ⟨t, ht⟩ := h
  subst ht
  simp

/-- The name a file resolves to is the name in the result of `Parse` when it
is not empty. -/
theorem resolvedName_declared (E : Externals) (fileName content : Str)
    (h : (frontmatter.Parse E content).1.Meta.Name ≠ []) :
    registry.resolvedName E fileName content = (frontmatter.Parse E content).1.Meta.Name := by
  rw [← templateOf_name]
  unfold registry.templateOf
  simp only [h, if_false]

/-- The name a file in `.tmpl` resolves to, followed by `.tmpl`, is the file
name when the result of `Parse` bears no name. -/
theorem resolvedName_stem (E : Externals) (fileName content : Str)
    (hs : HasSuffix fileName ".tmpl".toList = true)
    (h : (frontmatter.Parse E content).1.Meta.Name = []) :
    registry.resolvedName E fileName content ++ ".tmpl".toList = fileName := by
  rw [← templateOf_name]
  unfold registry.templateOf
  simp only [h, if_true]
  exact TrimSuffix_append fileName ".tmpl".toList hs

theorem isTemplateFile_suffix (e : registry.DirEntry) (h : registry.isTemplateFile e = true) :
    HasSuffix e.Name ".tmpl".toList = true := by
  unfold registry.isTemplateFile at h
  cases hs : HasSuffix e.Name ".tmpl".toList with
  | true => rfl
  | false =>
    rw [hs] at h
    simp at h

theorem loadTemplate_ok (E : Externals) (fs : registry.FileSystem) (r : registry.Registry)
    (path content : Str) (h : fs.ReadFile path = .ok content) :
    r.loadTemplate E fs path =
      (⟨r.templates.set (registry.templateOf E (fs.Base path) content).Name
          (registry.templateOf E (fs.Base path) content), r.includes⟩, none) := by
  simp only [registry.Registry.loadTemplate, h]

theorem loadTemplate_error (E : Externals) (fs : registry.FileSystem) (r : registry.Registry)
    (path : Str) (err : GoError) (h : fs.ReadFile path = .error err) :
    r.loadTemplate E fs path = (r, some err) := by
  simp only [registry.Registry.loadTemplate, h]

theorem GoMap.keys_set_nodup {β : Type} (m : GoMap β) (k : Str) (v : β)
    (h : m.keys.Nodup) : (m.set k v).keys.Nodup := by
  induction m with
  | nil => simp [GoMap.set, GoMap.keys]
  | cons p rest ih =>
    obtain ⟨k0, v0⟩ := p
    have hcons : (k0 :: GoMap.keys rest).Nodup := h
    rw [List.nodup_cons] at hcons
    by_cases hk : k0 = k
    · subst hk
      have : GoMap.set ((k0, v0) :: rest) k0 v = (k0, v) :: rest := by simp [GoMap.set]
      rw [this]
      show (k0 :: GoMap.keys rest).Nodup
      exact List.nodup_cons.2 hcons
    · have : GoMap.set ((k0, v0) :: rest) k v = (k0, v0) :: GoMap.set rest k v := by
        simp [GoMap.set, hk]
      rw [this]
      show (k0 :: GoMap.keys (GoMap.set rest k v)).Nodup
      refine List.nodup_cons.2 ⟨?_, ih hcons.2⟩
      intro hmem
      rcases (GoMap.mem_keys_set rest k v k0).1 hmem with h1 | h1
      · exact hk h1
      · exact hcons.1 h1

theorem lastResolved_cons (E : Externals) (name : Str) (f : Str × Str) (files : List (Str × Str)) :
    registry.lastResolved E name (f :: files) =
      (registry.lastResolved E name files).or
        (if registry.resolvedName E f.1 f.2 = name then some f else none) := by
  unfold registry.lastResolved
  rw [List.reverse_cons, List.find?_append]
  congr 1
  by_cases h : registry.resolvedName E f.1 f.2 = name <;> simp [List.find?, h]

/-- What a loop of `LoadDir` that ends without error leaves: the includes as
they were, and under each name the record of the last file read that resolves
to it, or the record held before. -/
theorem LoadDir_loop_ok (E : Externals) (fs : registry.FileSystem) (dir : Str)
    (entries : List registry.DirEntry) :
    ∀ (r r' : registry.Registry),
      (∀ e ∈ entries, fs.Base (fs.Join dir e.Name) = e.Name) →
      registry.Registry.LoadDir.loop E fs dir entries r = (r', none) →
      r'.includes = r.includes ∧
      (r.templates.keys.Nodup → r'.templates.keys.Nodup) ∧
      (registry.filesRead fs dir entries).map Prod.fst
        = (entries.filter registry.isTemplateFile).map (fun e => e.Name) ∧
      (∀ e ∈ entries, registry.isTemplateFile e = true →
        ∃ content : Str, fs.ReadFile (fs.Join dir e.Name) = .ok content) ∧
      ∀ name : Str, r'.templates.get? name =
        ((registry.lastResolved E name (registry.filesRead fs dir entries)).map
          (fun f => registry.templateOf E f.1 f.2)).or (r.templates.get? name) := by
  induction entries with
  | nil =>
    intro r r' _ h
    simp only [registry.Registry.LoadDir.loop] at h
    cases h
    refine ⟨rfl, fun hn => hn, rfl, fun e he => absurd he (List.not_mem_nil e), fun name => ?_⟩
    simp [registry.filesRead, registry.lastResolved]
  | cons e entries ih =>
    intro r r' hbase h
    have hbase' : ∀ e' ∈ entries, fs.Base (fs.Join dir e'.Name) = e'.Name :=
      fun e' he' => hbase e' (List.mem_cons_of_mem e he')
    by_cases ht : registry.isTemplateFile e = true
    · cases hread : fs.ReadFile (fs.Join dir e.Name) with
      | error err =>
        simp only [registry.Registry.LoadDir.loop, ht, if_true,
          loadTemplate_error E fs r _ err hread] at h
        simp at h
      | ok content =>
        simp only [registry.Registry.LoadDir.loop, ht, if_true,
          loadTemplate_ok E fs r _ content hread] at h
        obtain ⟨h1, h2, h3, h5, h4⟩ := ih _ r' hbase' h
        have hb : fs.Base (fs.Join dir e.Name) = e.Name := hbase e (List.mem_cons_self e entries)
        rw [hb] at h2 h4
        have hfiles : registry.filesRead fs dir (e :: entries)
            = (e.Name, content) :: registry.filesRead fs dir entries := by
          simp [registry.filesRead, ht, hread]
        refine ⟨h1, fun hn => h2 (GoMap.keys_set_nodup _ _ _ hn), ?_, ?_, fun name => ?_⟩
        · rw [hfiles, List.filter_cons_of_pos ht, List.map_cons, List.map_cons, h3]
        · intro e' he' ht'
          rcases List.mem_cons.1 he' with heq | hmem
          · rw [heq]; exact ⟨content, hread⟩
          · exact h5 e' hmem ht'
        · rw [h4 name, hfiles, lastResolved_cons, GoMap.get?_set, templateOf_name]
          cases hl : registry.lastResolved E name (registry.filesRead fs dir entries) with
          | some f => simp
          | none =>
            by_cases hk : registry.resolvedName E e.Name content = name <;> simp [hk]
    · simp only [Bool.not_eq_true] at ht
      simp only [registry.Registry.LoadDir.loop, ht, Bool.false_eq_true, if_false] at h
      obtain ⟨h1, h2, h3, h5, h4⟩ := ih r r' hbase' h
      have hfiles : registry.filesRead fs dir (e :: entries)
          = registry.filesRead fs dir entries := by
        simp [registry.filesRead, ht]
      refine ⟨h1, h2, ?_, ?_, fun name => ?_⟩
      · rw [hfiles, h3, List.filter_cons_of_neg (by simp [ht])]
      · intro e' he' ht'
        rcases List.mem_cons.1 he' with heq | hmem
        · rw [heq, ht] at ht'
          exact absurd ht' (by decide)
        · exact h5 e' hmem ht'
      · rw [h4 name, hfiles]

theorem loadIncludes_loop_templates (fs : registry.FileSystem) (dir : Str)
    (entries : List registry.DirEntry) :
    ∀ r : registry.Registry,
      (registry.Registry.loadIncludes.loop fs dir entries r).1.templates = r.templates := by
  induction entries with
  | nil =>
    intro r
    simp only [registry.Registry.loadIncludes.loop]
  | cons e entries ih =>
    intro r
    by_cases ht : registry.isTemplateFile e = true
    · cases hread : fs.ReadFile (fs.Join dir e.Name) with
      | error err => simp only [registry.Registry.loadIncludes.loop, ht, if_true, hread]
      | ok data =>
        simp only [registry.Registry.loadIncludes.loop, ht, if_true, hread]
        rw [ih]
    · simp only [Bool.not_eq_true] at ht
      simp only [registry.Registry.loadIncludes.loop, ht, Bool.false_eq_true, if_false]
      rw [ih]

/-- The first block of `LoadDir` leaves the templates as they are. -/
theorem LoadDir_includes_templates (fs : registry.FileSystem) (r : registry.Registry)
    (dir : Str) :
    (registry.Registry.LoadDir.includes fs r dir).1.templates = r.templates := by
  unfold registry.Registry.LoadDir.includes
  cases hs : fs.Stat (fs.Join dir config.IncludesDir) with
  | error err => rfl
  | ok b =>
    cases b with
    | false => rfl
    | true =>
      have hl : (r.loadIncludes fs (fs.Join dir config.IncludesDir)).1.templates
          = r.templates := by
        unfold registry.Registry.loadIncludes
        cases hd : fs.ReadDir (fs.Join dir config.IncludesDir) with
        | error err => rfl
        | ok entries => exact loadIncludes_loop_templates fs _ entries r
      rcases hi : r.loadIncludes fs (fs.Join dir config.IncludesDir) with ⟨r1, e⟩
      rw [hi] at hl
      cases e with
      | none => exact hl
      | some err => exact hl

/-- A `LoadDir` that ends without error has run its loop on the listing. -/
theorem LoadDir_ok (E : Externals) (fs : registry.FileSystem) (r r' : registry.Registry)
    (dir : Str) (entries : List registry.DirEntry)
    (hdir : fs.ReadDir dir = .ok entries)
    (h : r.LoadDir E fs dir = (r', none)) :
    ∃ r1 : registry.Registry, r1.templates = r.templates ∧
      registry.Registry.LoadDir.loop E fs dir entries r1 = (r', none) := by
  unfold registry.Registry.LoadDir at h
  have ht := LoadDir_includes_templates fs r dir
  rcases hi : registry.Registry.LoadDir.includes fs r dir with ⟨r1, e⟩
  rw [hi] at h ht
  cases e with
  | some err => simp at h
  | none =>
    simp only [hdir] at h
    exact ⟨r1, ht, h⟩

theorem lastResolved_some (E : Externals) (name : Str) (files : List (Str × Str))
    (f : Str × Str) (h : registry.lastResolved E name files = some f) :
    f ∈ files ∧ registry.resolvedName E f.1 f.2 = name := by
  unfold registry.lastResolved at h
  exact ⟨List.mem_reverse.1 (List.mem_of_find?_eq_some h), by simpa using List.find?_some h⟩

theorem lastResolved_of_mem (E : Externals) (files : List (Str × Str)) (f : Str × Str)
    (h : f ∈ files) :
    ∃ g : Str × Str, registry.lastResolved E (registry.resolvedName E f.1 f.2) files = some g := by
  cases hl : registry.lastResolved E (registry.resolvedName E f.1 f.2) files with
  | some g => exact ⟨g, rfl⟩
  | none =>
    unfold registry.lastResolved at hl
    rw [List.find?_eq_none] at hl
    have := hl f (List.mem_reverse.2 h)
    simp at this

theorem lastResolved_none (E : Externals) (name : Str) (files : List (Str × Str))
    (h : ∀ f ∈ files, registry.resolvedName E f.1 f.2 ≠ name) :
    registry.lastResolved E name files = none := by
  unfold registry.lastResolved
  rw [List.find?_eq_none]
  intro f hf
  simpa using h f (List.mem_reverse.1 hf)

theorem mem_filesRead (fs : registry.FileSystem) (dir : Str) (entries : List registry.DirEntry)
    (e : registry.DirEntry) (content : Str) (he : e ∈ entries)
    (ht : registry.isTemplateFile e = true)
    (hread : fs.ReadFile (fs.Join dir e.Name) = .ok content) :
    (e.Name, content) ∈ registry.filesRead fs dir entries := by
  unfold registry.filesRead
  rw [List.mem_filterMap]
  exact ⟨e, he, by simp [ht, hread]⟩

/-! ## `Registry.LoadDir` -/

/-- C22. After a `LoadDir` into a fresh registry that ends without error,
every template file of the listing is read and is registered under a key that
is the name in its metadata when `Parse` gives a non-empty one, and otherwise
the text that, followed by `.tmpl`, is the file name. `Get` with that key
returns a record that bears the key as its name: the record of the last file
of the listing that resolves to the key, which is the file itself when the
resolved names are distinct. `Get` with a name to which no file resolves
returns the not-found error. The name a file in `.tmpl` resolves to is, for
every file, the one described. In the directory `mixed` of the examples
`plain.tmpl` is registered under `plain` and `greeting.tmpl`, which declares
the name `a`, under `a`; neither `plain.tmpl` nor `greeting` is a key. -/
theorem LoadDir_registers_under_resolved_name (E : Externals) (fs : registry.FileSystem)
    (dir : Str) (entries : List registry.DirEntry) (r' : registry.Registry)
    (hdir : fs.ReadDir dir = .ok entries)
    (hbase : ∀ e ∈ entries, fs.Base (fs.Join dir e.Name) = e.Name)
    (hload : registry.New.LoadDir E fs dir = (r', none)) :
    (∀ e ∈ entries, registry.isTemplateFile e = true →
      ∃ content : Str, fs.ReadFile (fs.Join dir e.Name) = .ok content ∧
        ∃ (key : Str) (t : registry.Template) (f : Str × Str),
          ((frontmatter.Parse E content).1.Meta.Name ≠ [] →
            key = (frontmatter.Parse E content).1.Meta.Name) ∧
          ((frontmatter.Parse E content).1.Meta.Name = [] →
            key ++ ".tmpl".toList = e.Name) ∧
          key = registry.resolvedName E e.Name content ∧
          r'.Get E key = .ok t ∧
          t.Name = key ∧
          registry.lastResolved E key (registry.filesRead fs dir entries) = some f ∧
          t = registry.templateOf E f.1 f.2 ∧
          (((registry.filesRead fs dir entries).map
              (fun g => registry.resolvedName E g.1 g.2)).Nodup →
            t = registry.templateOf E e.Name content ∧ t.Content = content)) ∧
    (∀ name : Str,
      (∀ f ∈ registry.filesRead fs dir entries, registry.resolvedName E f.1 f.2 ≠ name) →
      r'.Get E name =
        .error (.errorf ("template ".toList ++ E.quote name ++ " not found".toList))) ∧
    (∀ fileName content : Str, HasSuffix fileName ".tmpl".toList = true →
      ((frontmatter.Parse E content).1.Meta.Name ≠ [] →
        registry.resolvedName E fileName content = (frontmatter.Parse E content).1.Meta.Name) ∧
      ((frontmatter.Parse E content).1.Meta.Name = [] →
        registry.resolvedName E fileName content ++ ".tmpl".toList = fileName)) ∧
    registry.New.LoadDir exampleExternals exampleFS "mixed".toList =
      (⟨[("a".toList, ⟨"a".toList, { Name := "a".toList }, "Hello".toList,
            "---\nname: a\n---\nHello".toList⟩),
          ("plain".toList,
            ⟨"plain".toList, {}, "Just plain text.".toList, "Just plain text.".toList⟩)],
        []⟩, none) ∧
    (registry.New.LoadDir exampleExternals exampleFS "mixed".toList).1.Get exampleExternals
        "plain".toList =
      .ok ⟨"plain".toList, {}, "Just plain text.".toList, "Just plain text.".toList⟩ ∧
    (registry.New.LoadDir exampleExternals exampleFS "mixed".toList).1.Get exampleExternals
        "a".toList =
      .ok ⟨"a".toList, { Name := "a".toList }, "Hello".toList,
        "---\nname: a\n---\nHello".toList⟩ ∧
    (registry.New.LoadDir exampleExternals exampleFS "mixed".toList).1.Get exampleExternals
        "plain.tmpl".toList =
      .error (.errorf "template \"plain.tmpl\" not found".toList) ∧
    (registry.New.LoadDir exampleExternals exampleFS "mixed".toList).1.Get exampleExternals
        "greeting".toList =
      .error (.errorf "template \"greeting\" not found".toList) := by
  obtain ⟨r1, hr1, hloop⟩ := LoadDir_ok E fs registry.New r' dir entries hdir hload
  obtain ⟨_, _, _, hreadable, hget⟩ := LoadDir_loop_ok E fs dir entries r1 r' hbase hloop
  have hfresh : ∀ name : Str, r1.templates.get? name = none := by
    intro name
    rw [hr1]
    rfl
  refine ⟨?_, ?_, ?_, by decide, rfl, rfl, rfl, rfl⟩
  · intro e he ht
    obtain ⟨content, hread⟩ := hreadable e he ht
    refine ⟨content, hread, ?_⟩
    have hmem := mem_filesRead fs dir entries e content he ht hread
    obtain ⟨f, hf⟩ := lastResolved_of_mem E _ _ hmem
    have hf' : registry.lastResolved E (registry.resolvedName E e.Name content)
        (registry.filesRead fs dir entries) = some f := hf
    obtain ⟨hfmem, hfname⟩ := lastResolved_some E _ _ f hf'
    have hg := hget (registry.resolvedName E e.Name content)
    rw [hf', hfresh] at hg
    simp only [Option.map_some', Option.or_some] at hg
    refine ⟨registry.resolvedName E e.Name content, registry.templateOf E f.1 f.2, f,
      resolvedName_declared E e.Name content,
      resolvedName_stem E e.Name content (isTemplateFile_suffix e ht), rfl, ?_, ?_, hf', rfl, ?_⟩
    · simp only [registry.Registry.Get, hg]
    · rw [templateOf_name, hfname]
    · intro hnodup
      have hinj := List.inj_on_of_nodup_map hnodup hfmem hmem hfname
      rw [hinj]
      exact ⟨rfl, rfl⟩
  · intro name hno
    have hg := hget name
    rw [lastResolved_none E name _ hno, hfresh] at hg
    simp only [Option.map_none', Option.or_none] at hg
    simp only [registry.Registry.Get, hg]
  · intro fileName content hs
    exact ⟨resolvedName_declared E fileName content, resolvedName_stem E fileName content hs⟩

/-- C22 at the directory `mixed` of the examples. The file `plain.tmpl` has no
frontmatter: its key, followed by `.tmpl`, is `plain.tmpl`, and `Get` with the
key returns its record. The file `greeting.tmpl` declares the name `a`: it
resolves to `a`, not to `greeting`, and `Get` on `greeting` finds nothing. -/
theorem LoadDir_registers_under_resolved_name_witness :
    (∃ content : Str,
      exampleFS.ReadFile (exampleFS.Join "mixed".toList "plain.tmpl".toList) = .ok content ∧
        ∃ (key : Str) (t : registry.Template) (f : Str × Str),
          ((frontmatter.Parse exampleExternals content).1.Meta.Name ≠ [] →
            key = (frontmatter.Parse exampleExternals content).1.Meta.Name) ∧
          ((frontmatter.Parse exampleExternals content).1.Meta.Name = [] →
            key ++ ".tmpl".toList = "plain.tmpl".toList) ∧
          key = registry.resolvedName exampleExternals "plain.tmpl".toList content ∧
          registry.Registry.Get exampleExternals
            ⟨[("a".toList, ⟨"a".toList, { Name := "a".toList }, "Hello".toList,
                "---\nname: a\n---\nHello".toList⟩),
              ("plain".toList, ⟨"plain".toList, {}, "Just plain text.".toList,
                "Just plain text.".toList⟩)], []⟩ key = .ok t ∧
          t.Name = key ∧
          registry.lastResolved exampleExternals key
            (registry.filesRead exampleFS "mixed".toList
              [⟨"greeting.tmpl".toList, false⟩, ⟨"notes.txt".toList, false⟩,
                ⟨"plain.tmpl".toList, false⟩]) = some f ∧
          t = registry.templateOf exampleExternals f.1 f.2 ∧
          (((registry.filesRead exampleFS "mixed".toList
              [⟨"greeting.tmpl".toList, false⟩, ⟨"notes.txt".toList, false⟩,
                ⟨"plain.tmpl".toList, false⟩]).map
              (fun g => registry.resolvedName exampleExternals g.1 g.2)).Nodup →
            t = registry.templateOf exampleExternals "plain.tmpl".toList content ∧
            t.Content = content)) ∧
    registry.Registry.Get exampleExternals
        ⟨[("a".toList, ⟨"a".toList, { Name := "a".toList }, "Hello".toList,
            "---\nname: a\n---\nHello".toList⟩),
          ("plain".toList, ⟨"plain".toList, {}, "Just plain text.".toList,
            "Just plain text.".toList⟩)], []⟩ "greeting".toList =
      .error (.errorf ("template ".toList ++ exampleExternals.quote "greeting".toList
        ++ " not found".toList)) ∧
    registry.resolvedName exampleExternals "plain.tmpl".toList "Just plain text.".toList
      = "plain".toList ∧
    registry.resolvedName exampleExternals "greeting.tmpl".toList
      "---\nname: a\n---\nHello".toList = "a".toList :=
  have h := LoadDir_registers_under_resolved_name exampleExternals exampleFS "mixed".toList
    [⟨"greeting.tmpl".toList, false⟩, ⟨"notes.txt".toList, false⟩,
      ⟨"plain.tmpl".toList, false⟩]
    ⟨[("a".toList, ⟨"a".toList, { Name := "a".toList }, "Hello".toList,
        "---\nname: a\n---\nHello".toList⟩),
      ("plain".toList, ⟨"plain".toList, {}, "Just plain text.".toList,
        "Just plain text.".toList⟩)], []⟩
    rfl (by decide) (by decide)
  ⟨h.1 ⟨"plain.tmpl".toList, false⟩ (by decide) (by decide),
    h.2.1 "greeting".toList (by decide), by decide, by decide⟩

/-- C23. After a `LoadDir` into a fresh registry that ends without error, the
length of `List()` is the number of distinct names the template files resolve
to (every template file of the listing is read); each such name is the key of
exactly one entry, and the entry is the record of the last file that resolves
to the name. -/
theorem LoadDir_one_entry_per_name (E : Externals) (fs : registry.FileSystem)
    (dir : Str) (entries : List registry.DirEntry) (r' : registry.Registry)
    (hdir : fs.ReadDir dir = .ok entries)
    (hbase : ∀ e ∈ entries, fs.Base (fs.Join dir e.Name) = e.Name)
    (hload : registry.New.LoadDir E fs dir = (r', none)) :
    r'.List.length = ((registry.filesRead fs dir entries).map
      (fun f => registry.resolvedName E f.1 f.2)).dedup.length ∧
    (registry.filesRead fs dir entries).length
      = (entries.filter registry.isTemplateFile).length ∧
    (∀ name ∈ (registry.filesRead fs dir entries).map
        (fun f => registry.resolvedName E f.1 f.2),
      r'.templates.keys.countP (fun k => decide (k = name)) = 1) ∧
    (∀ (name : Str) (f : Str × Str),
      registry.lastResolved E name (registry.filesRead fs dir entries) = some f →
      r'.templates.get? name = some (registry.templateOf E f.1 f.2)) := by
  obtain ⟨r1, hr1, hloop⟩ := LoadDir_ok E fs registry.New r' dir entries hdir hload
  obtain ⟨_, hnodup, hnames, _, hget⟩ := LoadDir_loop_ok E fs dir entries r1 r' hbase hloop
  have hfresh : ∀ name : Str, r1.templates.get? name = none := by
    intro name
    rw [hr1]
    rfl
  have hnd : r'.templates.keys.Nodup := hnodup (by rw [hr1]; exact List.nodup_nil)
  have hmem : ∀ k : Str, k ∈ r'.templates.keys ↔
      k ∈ (registry.filesRead fs dir entries).map (fun f => registry.resolvedName E f.1 f.2) := by
    intro k
    rw [← GoMap.get?_isSome_iff, hget k, hfresh, Option.or_none]
    constructor
    · intro h
      cases hl : registry.lastResolved E k (registry.filesRead fs dir entries) with
      | none => rw [hl] at h; simp at h
      | some f =>
        obtain ⟨hfm, hfn⟩ := lastResolved_some E k _ f hl
        exact List.mem_map.2 ⟨f, hfm, hfn⟩
    · intro h
      obtain ⟨f, hfm, hfn⟩ := List.mem_map.1 h
      obtain ⟨g, hg⟩ := lastResolved_of_mem E _ f hfm
      rw [hfn] at hg
      rw [hg]
      rfl
  refine ⟨?_, ?_, ?_, ?_⟩
  · have hperm : r'.templates.keys.Perm (((registry.filesRead fs dir entries).map
        (fun f => registry.resolvedName E f.1 f.2)).dedup) :=
      (List.perm_ext_iff_of_nodup hnd (List.nodup_dedup _)).2
        (fun k => by rw [hmem k, List.mem_dedup])
    have hlen : r'.List.length = r'.templates.keys.length := by
      simp [registry.Registry.List, GoMap.keys]
    rw [hlen, hperm.length_eq]
  · have := congrArg List.length hnames
    simpa using this
  · intro name hn
    have hc := List.count_eq_one_of_mem hnd ((hmem name).2 hn)
    exact hc
  · intro name f hf
    rw [hget name, hf, hfresh]
    rfl

/-- C23 at the directory `dup` of the examples: two files declare the name
`a`; `List()` has one record, the one of the second file. -/
theorem LoadDir_one_entry_per_name_witness :
    (registry.Registry.List
      ⟨[("a".toList, registry.templateOf exampleExternals "b.tmpl".toList
        "---\nname: a\n---\nsecond".toList)], []⟩).length
      = ((registry.filesRead exampleFS "dup".toList
          [⟨"a.tmpl".toList, false⟩, ⟨"b.tmpl".toList, false⟩]).map
        (fun f => registry.resolvedName exampleExternals f.1 f.2)).dedup.length ∧
    (registry.filesRead exampleFS "dup".toList
        [⟨"a.tmpl".toList, false⟩, ⟨"b.tmpl".toList, false⟩]).length
      = (List.filter registry.isTemplateFile
        [⟨"a.tmpl".toList, false⟩, ⟨"b.tmpl".toList, false⟩]).length ∧
    (∀ name ∈ (registry.filesRead exampleFS "dup".toList
          [⟨"a.tmpl".toList, false⟩, ⟨"b.tmpl".toList, false⟩]).map
        (fun f => registry.resolvedName exampleExternals f.1 f.2),
      (GoMap.keys [("a".toList, registry.templateOf exampleExternals "b.tmpl".toList
        "---\nname: a\n---\nsecond".toList)]).countP (fun k => decide (k = name)) = 1) ∧
    (∀ (name : Str) (f : Str × Str),
      registry.lastResolved exampleExternals name (registry.filesRead exampleFS "dup".toList
        [⟨"a.tmpl".toList, false⟩, ⟨"b.tmpl".toList, false⟩]) = some f →
      GoMap.get? [("a".toList, registry.templateOf exampleExternals "b.tmpl".toList
        "---\nname: a\n---\nsecond".toList)] name
        = some (registry.templateOf exampleExternals f.1 f.2)) :=
  LoadDir_one_entry_per_name exampleExternals exampleFS "dup".toList
    [⟨"a.tmpl".toList, false⟩, ⟨"b.tmpl".toList, false⟩]
    ⟨[("a".toList, registry.templateOf exampleExternals "b.tmpl".toList
      "---\nname: a\n---\nsecond".toList)], []⟩
    rfl (by decide) (by decide)

/-! ## `Registry.LoadDir`: failures -/

/-- Entries loaded without error hand the loop on to the entries after them. -/
theorem LoadDir_loop_append (E : Externals) (fs : registry.FileSystem) (dir : Str)
    (pre : List registry.DirEntry) :
    ∀ (r r2 : registry.Registry) (rest : List registry.DirEntry),
      registry.Registry.LoadDir.loop E fs dir pre r = (r2, none) →
      registry.Registry.LoadDir.loop E fs dir (pre ++ rest) r
        = registry.Registry.LoadDir.loop E fs dir rest r2 := by
  induction pre with
  | nil =>
    intro r r2 rest h
    simp only [registry.Registry.LoadDir.loop] at h
    cases h
    rfl
  | cons e pre ih =>
    intro r r2 rest h
    by_cases ht : registry.isTemplateFile e = true
    · cases hread : fs.ReadFile (fs.Join dir e.Name) with
      | error err =>
        simp only [registry.Registry.LoadDir.loop, ht, if_true,
          loadTemplate_error E fs r _ err hread] at h
        simp at h
      | ok content =>
        simp only [registry.Registry.LoadDir.loop, ht, if_true,
          loadTemplate_ok E fs r _ content hread] at h
        simp only [List.cons_append, registry.Registry.LoadDir.loop, ht, if_true,
          loadTemplate_ok E fs r _ content hread]
        exact ih _ r2 rest h
    · simp only [Bool.not_eq_true] at ht
      simp only [registry.Registry.LoadDir.loop, ht, Bool.false_eq_true, if_false] at h
      simp only [List.cons_append, registry.Registry.LoadDir.loop, ht, Bool.false_eq_true,
        if_false]
      exact ih r r2 rest h

/-- C24, as stated, fails. In the directory `broken` of the examples the file
`a.tmpl` is read and `b.tmpl` cannot be read: `LoadDir` into a fresh registry
returns the error of `b.tmpl`, and the registry it leaves holds the template
`a`, which it did not hold before the call. -/
theorem LoadDir_failure_leaves_partial_state :
    registry.New.LoadDir exampleExternals exampleFS "broken".toList =
      (⟨[("a".toList, ⟨"a".toList, {}, "Just plain text.".toList, "Just plain text.".toList⟩)],
          []⟩,
        some (.wrap "loading template \"broken/b.tmpl\": ".toList
          (.io "open broken/b.tmpl: permission denied".toList))) ∧
    (registry.New.LoadDir exampleExternals exampleFS "broken".toList).1.templates
      ≠ registry.New.templates := by
  decide

/-- C24, amended. When the includes are loaded, the templates before an entry
are loaded and the file of that entry cannot be read, `LoadDir` stops there and
returns the error of the file, wrapped with its path; the registry is not
restored: it is the registry the loop left before that entry, with the
includes loaded and, under each name, the record of the last file read before
the failure that resolves to it, or the record held before the call. When the
directory itself cannot be listed and no include was loaded, the registry is
as before the call. -/
theorem LoadDir_failure_keeps_loaded (E : Externals) (fs : registry.FileSystem)
    (r r1 r2 : registry.Registry) (dir : Str) (pre post : List registry.DirEntry)
    (e : registry.DirEntry) (err : GoError)
    (hinc : registry.Registry.LoadDir.includes fs r dir = (r1, none))
    (hdir : fs.ReadDir dir = .ok (pre ++ e :: post))
    (hbase : ∀ e' ∈ pre, fs.Base (fs.Join dir e'.Name) = e'.Name)
    (hpre : registry.Registry.LoadDir.loop E fs dir pre r1 = (r2, none))
    (he : registry.isTemplateFile e = true)
    (hread : fs.ReadFile (fs.Join dir e.Name) = .error err) :
    r.LoadDir E fs dir =
      (r2, some (.wrap ("loading template ".toList ++ E.quote (fs.Join dir e.Name)
        ++ ": ".toList) err)) ∧
    r2.includes = r1.includes ∧
    (∀ name : Str, r2.templates.get? name =
      ((registry.lastResolved E name (registry.filesRead fs dir pre)).map
        (fun f => registry.templateOf E f.1 f.2)).or (r.templates.get? name)) ∧
    (∀ (dir' : Str) (err' : GoError),
      registry.Registry.LoadDir.includes fs r dir' = (r, none) →
      fs.ReadDir dir' = .error err' →
      r.LoadDir E fs dir' =
        (r, some (.wrap ("reading directory ".toList ++ E.quote dir' ++ ": ".toList) err'))) := by
  obtain ⟨h1, _, _, _, h4⟩ := LoadDir_loop_ok E fs dir pre r1 r2 hbase hpre
  have ht1 : r1.templates = r.templates := by
    have := LoadDir_includes_templates fs r dir
    rw [hinc] at this
    exact this
  refine ⟨?_, h1, ?_, ?_⟩
  · unfold registry.Registry.LoadDir
    simp only [hinc, hdir]
    rw [LoadDir_loop_append E fs dir pre r1 r2 (e :: post) hpre]
    simp only [registry.Registry.LoadDir.loop, he, if_true,
      loadTemplate_error E fs r2 _ err hread]
  · intro name
    rw [h4 name, ht1]
  · intro dir' err' hinc' hdir'
    unfold registry.Registry.LoadDir
    simp only [hinc', hdir']

/-- The amended C24 at the directory `broken` of the examples: `a.tmpl` is
loaded, `b.tmpl` cannot be read, `c.tmpl` is not reached. -/
theorem LoadDir_failure_keeps_loaded_witness :
    registry.New.LoadDir exampleExternals exampleFS "broken".toList =
      ((⟨[("a".toList,
            ⟨"a".toList, {}, "Just plain text.".toList, "Just plain text.".toList⟩)], []⟩ :
          registry.Registry),
        some (.wrap ("loading template ".toList
          ++ exampleExternals.quote (exampleFS.Join "broken".toList "b.tmpl".toList)
          ++ ": ".toList) (.io "open broken/b.tmpl: permission denied".toList))) ∧
    GoMap.get? [("a".toList, (⟨"a".toList, {}, "Just plain text.".toList,
        "Just plain text.".toList⟩ : registry.Template))] "a".toList
      = some ⟨"a".toList, {}, "Just plain text.".toList, "Just plain text.".toList⟩ :=
  have h := LoadDir_failure_keeps_loaded exampleExternals exampleFS registry.New registry.New
    ⟨[("a".toList, ⟨"a".toList, {}, "Just plain text.".toList, "Just plain text.".toList⟩)],
      []⟩
    "broken".toList [⟨"a.tmpl".toList, false⟩] [⟨"c.tmpl".toList, false⟩]
    ⟨"b.tmpl".toList, false⟩ (.io "open broken/b.tmpl: permission denied".toList)
    (by decide) rfl (by decide) (by decide) (by decide) rfl
  ⟨h.1, by decide⟩

/-- C25. For a template file that is read and on whose content
`frontmatter.Parse` returns the error of the decoder, `loadTemplate` returns no
error and registers, under the file name without `.tmpl`, a record with that
name, empty metadata, an empty body and the whole text of the file as content;
the loop of `LoadDir` goes on with the entries after it. In the directory
`badmeta` of the examples `LoadDir` ends without error. -/
theorem loadTemplate_undecodable_metadata (E : Externals) (fs : registry.FileSystem)
    (r : registry.Registry) (dir : Str) (e : registry.DirEntry)
    (rest : List registry.DirEntry) (content msg : Str)
    (he : registry.isTemplateFile e = true)
    (hread : fs.ReadFile (fs.Join dir e.Name) = .ok content)
    (hparse : (frontmatter.Parse E content).2 = some (GoError.yaml msg)) :
    r.loadTemplate E fs (fs.Join dir e.Name) =
      (⟨r.templates.set (TrimSuffix (fs.Base (fs.Join dir e.Name)) ".tmpl".toList)
          ⟨TrimSuffix (fs.Base (fs.Join dir e.Name)) ".tmpl".toList, {}, [], content⟩,
        r.includes⟩, none) ∧
    registry.Registry.LoadDir.loop E fs dir (e :: rest) r =
      registry.Registry.LoadDir.loop E fs dir rest
        ⟨r.templates.set (TrimSuffix (fs.Base (fs.Join dir e.Name)) ".tmpl".toList)
          ⟨TrimSuffix (fs.Base (fs.Join dir e.Name)) ".tmpl".toList, {}, [], content⟩,
        r.includes⟩ ∧
    registry.New.LoadDir exampleExternals exampleFS "badmeta".toList =
      (⟨[("bad".toList,
          ⟨"bad".toList, {}, [], "---\nname: a: b\n---\nHello".toList⟩)], []⟩, none) := by
  have hres := Parse_yaml_error_result E content msg hparse
  have ht : registry.templateOf E (fs.Base (fs.Join dir e.Name)) content
      = ⟨TrimSuffix (fs.Base (fs.Join dir e.Name)) ".tmpl".toList, {}, [], content⟩ := by
    unfold registry.templateOf
    rw [hres, hparse]
    rfl
  have hl := loadTemplate_ok E fs r _ content hread
  rw [ht] at hl
  refine ⟨hl, ?_, by decide⟩
  simp only [registry.Registry.LoadDir.loop, he, if_true, hl]

/-- C25 at the file `bad.tmpl` of the directory `badmeta` of the examples. -/
theorem loadTemplate_undecodable_metadata_witness :
    registry.New.loadTemplate exampleExternals exampleFS
        (exampleFS.Join "badmeta".toList "bad.tmpl".toList) =
      (⟨GoMap.set registry.New.templates
          (TrimSuffix (exampleFS.Base (exampleFS.Join "badmeta".toList "bad.tmpl".toList))
            ".tmpl".toList)
          ⟨TrimSuffix (exampleFS.Base (exampleFS.Join "badmeta".toList "bad.tmpl".toList))
            ".tmpl".toList, {}, [], "---\nname: a: b\n---\nHello".toList⟩,
        registry.New.includes⟩, none) ∧
    TrimSuffix (exampleFS.Base (exampleFS.Join "badmeta".toList "bad.tmpl".toList))
      ".tmpl".toList = "bad".toList :=
  ⟨(loadTemplate_undecodable_metadata exampleExternals exampleFS registry.New
      "badmeta".toList ⟨"bad.tmpl".toList, false⟩ [] "---\nname: a: b\n---\nHello".toList
      "yaml: line 2: mapping values are not allowed in this context".toList
      (by decide) rfl (by decide)).1, by decide⟩

end Promptkit
